import Mathlib

/-!
# System-audio loopback capture engine: a shallow embedding

The definitions below embed `src/native/system-audio-addon/src/wasapi_loopback.cc`
(the capture engine) function by function.

Modelling conventions
* `float` values are IEEE-754 binary32 values, `F32`: a finite value is carried as the
  rational number it denotes (the sign of zero is not tracked), arithmetic rounds to
  nearest, ties to even, with a 24-bit significand (`roundF32`).
* 16- and 32-bit unsigned quantities are natural numbers, reduced modulo `2^16`/`2^32`
  at every operation that can exceed the width.  The 64-bit atomic counters start at 0
  at `Start` and grow by less than `2^32` per step, so that they cannot wrap within
  `2^32` steps; they are natural numbers.
* `size_t` is 64 bits wide and memory is little-endian (the add-on is built for 64-bit
  Windows).  Failure to allocate memory is not modelled.
* `resample_accumulator_` is a `double` that only ever holds sums and differences of
  32-bit unsigned integers below `2^33`; such values are exact in a `double`, so the
  accumulator is a natural number.
* A `while` loop is run with a bound computed from the state that is enough whenever
  the loop terminates at all; the result is `none` exactly when the C++ loop would
  never exit.
* Raw capture memory is a total map from byte offsets to bytes.
-/

namespace SystemAudio

/-! ## binary32 values -/

/-- A value of C++ type `float` (IEEE-754 binary32). -/
inductive F32 where
  | finite (v : ℚ)
  | inf (negative : Bool)
  | nan
deriving DecidableEq

/-- Rounding of a rational to the nearest integer, ties to even (the default
floating-point rounding mode, also used by `lrintf`). -/
def roundHalfEven (q : ℚ) : ℤ :=
  let f := ⌊q⌋
  let r := q - f
  if r < 1 / 2 then f
  else if 1 / 2 < r then f + 1
  else if f % 2 = 0 then f else f + 1

/-- Exponent of the binade of `q` in binary32: `⌊log₂ |q|⌋`, not below the exponent
`-126` of the subnormal numbers. -/
def f32Exponent (q : ℚ) : ℤ := max (Int.log 2 |q|) (-126)

/-- Nearest binary32-representable rational (24-bit significand, ties to even),
before the overflow check. -/
def roundF32 (q : ℚ) : ℚ :=
  let ulp : ℚ := (2 : ℚ) ^ (f32Exponent q - 23)
  (roundHalfEven (q / ulp) : ℚ) * ulp

/-- Rounding of an exact result to a `float`; magnitudes that round to `2^128` or more
overflow to infinity. -/
def F32.round (q : ℚ) : F32 :=
  let r := roundF32 q
  if (2 : ℚ) ^ (128 : ℕ) ≤ |r| then F32.inf (decide (q < 0)) else F32.finite r

/-- Value of the `float` whose object representation is the 32-bit pattern `b`. -/
def F32.ofBits (b : ℕ) : F32 :=
  let negative : Bool := decide (b / 2 ^ 31 % 2 = 1)
  let e : ℕ := b / 2 ^ 23 % 256
  let m : ℕ := b % 2 ^ 23
  let sign : ℚ := if negative then -1 else 1
  if e = 255 then (if m = 0 then F32.inf negative else F32.nan)
  else if e = 0 then F32.finite (sign * (m : ℚ) * (2 : ℚ) ^ (-149 : ℤ))
  else F32.finite (sign * ((2 ^ 23 + m : ℕ) : ℚ) * (2 : ℚ) ^ ((e : ℤ) - 150))

/-- Conversion `static_cast<float>(i)` of an integer. -/
def F32.ofInt (i : ℤ) : F32 := F32.round i

/-- Product `x * c` of a `float` with a finite nonzero `float` constant `c`. -/
def F32.mulConst (x : F32) (c : ℚ) : F32 :=
  match x with
  | F32.finite v => F32.round (v * c)
  | F32.inf s => F32.inf (xor s (decide (c < 0)))
  | F32.nan => F32.nan

/-- Quotient `x / c` of a `float` by a finite nonzero `float` constant `c`. -/
def F32.divConst (x : F32) (c : ℚ) : F32 :=
  match x with
  | F32.finite v => F32.round (v / c)
  | F32.inf s => F32.inf (xor s (decide (c < 0)))
  | F32.nan => F32.nan

/-- Comparison `x < c` of a `float` with a finite constant; false on NaN. -/
def F32.ltConst (x : F32) (c : ℚ) : Bool :=
  match x with
  | F32.finite v => decide (v < c)
  | F32.inf s => s
  | F32.nan => false

/-- Comparison `c < x` of a finite constant with a `float`; false on NaN. -/
def F32.gtConst (x : F32) (c : ℚ) : Bool :=
  match x with
  | F32.finite v => decide (c < v)
  | F32.inf s => !s
  | F32.nan => false

/-- Comparison `x >= c`; false on NaN. -/
def F32.geConst (x : F32) (c : ℚ) : Bool :=
  match x with
  | F32.finite v => decide (c ≤ v)
  | F32.inf s => !s
  | F32.nan => false

/-- Comparison `x <= c`; false on NaN. -/
def F32.leConst (x : F32) (c : ℚ) : Bool :=
  match x with
  | F32.finite v => decide (v ≤ c)
  | F32.inf s => s
  | F32.nan => false

/-- The call `std::clamp(value, lo, hi)`: `(value < lo) ? lo : (hi < value) ? hi : value`. -/
def F32.clamp (value : F32) (lo hi : ℚ) : F32 :=
  if value.ltConst lo then F32.finite lo
  else if value.gtConst hi then F32.finite hi
  else value

/-- The call `std::lrintf(x)`: the nearest integer, ties to even.  The C standard leaves
the result unspecified when `x` is not finite; `unspecified` stands for that value. -/
def lrintf (unspecified : ℤ) (x : F32) : ℤ :=
  match x with
  | F32.finite v => roundHalfEven v
  | _ => unspecified

/-- Conversion `static_cast<int16_t>(i)`: reduction modulo `2^16` into `[-32768, 32767]`. -/
def toInt16 (i : ℤ) : ℤ := (i + 32768) % 65536 - 32768

/-- The zero sample `0.0f`. -/
def F32.zero : F32 := F32.finite 0

/-- Membership of a `float` in the closed interval `[-1.0, 1.0]`. -/
def F32.InUnitRange (x : F32) : Prop :=
  match x with
  | F32.finite v => -1 ≤ v ∧ v ≤ 1
  | _ => False

/-! ## FloatToInt16 (wasapi_loopback.cc, lines 47-52) -/

/-- Source function `FloatToInt16`. -/
def FloatToInt16 (lrintf_unspecified : ℤ) (value : F32) : ℤ :=
  let clamped := F32.clamp value (-1) 1
  if clamped.geConst 1 then 32767
  else if clamped.leConst (-1) then -32768
  else toInt16 (lrintf lrintf_unspecified (clamped.mulConst 32767))

/-! ## Negotiated input format (wasapi_loopback.cc, lines 26-39) -/

/-- Source enumeration `SampleFormat`. -/
inductive SampleFormat where
  | kUnknown
  | kFloat32
  | kInt16
  | kInt32
deriving DecidableEq, Repr

/-- Source structure `InputFormatInfo`. -/
structure InputFormatInfo where
  sample_format : SampleFormat := SampleFormat.kUnknown
  sample_rate : ℕ := 0
  channels : ℕ := 0
  bits_per_sample : ℕ := 0
  valid_bits_per_sample : ℕ := 0
deriving DecidableEq, Repr

/-- Windows SDK structure `GUID`. -/
structure GUID where
  Data1 : ℕ
  Data2 : ℕ
  Data3 : ℕ
  Data4 : List ℕ
deriving DecidableEq, Repr

/-- Windows SDK structure `WAVEFORMATEXTENSIBLE`: the `WAVEFORMATEX` header `Format`
(flattened) followed by the extension fields.  The extension fields are the memory that
follows the header; the source consults them only when `cbSize` is at least 22. -/
structure WAVEFORMATEXTENSIBLE where
  wFormatTag : ℕ
  nChannels : ℕ
  nSamplesPerSec : ℕ
  nAvgBytesPerSec : ℕ
  nBlockAlign : ℕ
  wBitsPerSample : ℕ
  cbSize : ℕ
  wValidBitsPerSample : ℕ
  dwChannelMask : ℕ
  SubFormat : GUID
deriving DecidableEq, Repr

/-- The field widths of `WAVEFORMATEXTENSIBLE` (`WORD` is 16 bits, `DWORD` 32 bits). -/
def WAVEFORMATEXTENSIBLE.WellTyped (f : WAVEFORMATEXTENSIBLE) : Prop :=
  f.wFormatTag < 2 ^ 16 ∧ f.nChannels < 2 ^ 16 ∧ f.nSamplesPerSec < 2 ^ 32 ∧
  f.nAvgBytesPerSec < 2 ^ 32 ∧ f.nBlockAlign < 2 ^ 16 ∧ f.wBitsPerSample < 2 ^ 16 ∧
  f.cbSize < 2 ^ 16 ∧ f.wValidBitsPerSample < 2 ^ 16 ∧ f.dwChannelMask < 2 ^ 32

/-- Windows SDK constant `WAVE_FORMAT_PCM` (mmreg.h). -/
def WAVE_FORMAT_PCM : ℕ := 0x0001

/-- Windows SDK constant `WAVE_FORMAT_IEEE_FLOAT` (mmreg.h). -/
def WAVE_FORMAT_IEEE_FLOAT : ℕ := 0x0003

/-- Windows SDK constant `WAVE_FORMAT_EXTENSIBLE` (mmreg.h). -/
def WAVE_FORMAT_EXTENSIBLE : ℕ := 0xFFFE

/-- Windows SDK constant `KSDATAFORMAT_SUBTYPE_PCM` (ksmedia.h),
`00000001-0000-0010-8000-00aa00389b71`. -/
def KSDATAFORMAT_SUBTYPE_PCM : GUID :=
  ⟨0x00000001, 0x0000, 0x0010, [0x80, 0x00, 0x00, 0xaa, 0x00, 0x38, 0x9b, 0x71]⟩

/-- Windows SDK constant `KSDATAFORMAT_SUBTYPE_IEEE_FLOAT` (ksmedia.h),
`00000003-0000-0010-8000-00aa00389b71`. -/
def KSDATAFORMAT_SUBTYPE_IEEE_FLOAT : GUID :=
  ⟨0x00000003, 0x0000, 0x0010, [0x80, 0x00, 0x00, 0xaa, 0x00, 0x38, 0x9b, 0x71]⟩

/-- The value of `sizeof(WAVEFORMATEXTENSIBLE) - sizeof(WAVEFORMATEX)`, that is 40 - 18. -/
def extensibleExtraSize : ℕ := 22

/-- Windows SDK constant `AUDCLNT_BUFFERFLAGS_SILENT` (audioclient.h). -/
def AUDCLNT_BUFFERFLAGS_SILENT : ℕ := 0x2

/-- Source function `IsEqualGuid` (lines 54-59). -/
def IsEqualGuid (left right : GUID) : Bool :=
  left.Data1 == right.Data1 && left.Data2 == right.Data2 &&
  left.Data3 == right.Data3 && left.Data4 == right.Data4

/-- Source function `ParseInputFormat` (lines 61-108); `none` is the null pointer. -/
def ParseInputFormat (format : Option WAVEFORMATEXTENSIBLE) : InputFormatInfo :=
  match format with
  | none => {}
  | some format =>
    let info : InputFormatInfo :=
      { sample_format := SampleFormat.kUnknown
        sample_rate := format.nSamplesPerSec
        channels := format.nChannels
        bits_per_sample := format.wBitsPerSample
        valid_bits_per_sample := format.wBitsPerSample }
    if format.wFormatTag = WAVE_FORMAT_IEEE_FLOAT ∧ format.wBitsPerSample = 32 then
      { info with sample_format := SampleFormat.kFloat32 }
    else if format.wFormatTag = WAVE_FORMAT_PCM then
      if format.wBitsPerSample = 16 then
        { info with sample_format := SampleFormat.kInt16 }
      else if format.wBitsPerSample = 32 then
        { info with sample_format := SampleFormat.kInt32 }
      else info
    else if format.wFormatTag = WAVE_FORMAT_EXTENSIBLE ∧
        extensibleExtraSize ≤ format.cbSize then
      let info := { info with valid_bits_per_sample := format.wValidBitsPerSample }
      if IsEqualGuid format.SubFormat KSDATAFORMAT_SUBTYPE_IEEE_FLOAT ∧
          format.wBitsPerSample = 32 then
        { info with sample_format := SampleFormat.kFloat32 }
      else if IsEqualGuid format.SubFormat KSDATAFORMAT_SUBTYPE_PCM then
        if format.wBitsPerSample = 16 then
          { info with sample_format := SampleFormat.kInt16 }
        else if format.wBitsPerSample = 24 ∨ format.wBitsPerSample = 32 then
          { info with sample_format := SampleFormat.kInt32 }
        else info
      else info
    else info

/-- The check of lines 370-371 under which the capture thread goes on with a parsed
format. -/
def formatAccepted (input_format : InputFormatInfo) : Bool :=
  !(input_format.sample_format == SampleFormat.kUnknown ||
    input_format.channels == 0 || input_format.sample_rate == 0)

/-! ## DecodeSample (wasapi_loopback.cc, lines 110-138) -/

/-- A byte. -/
abbrev Byte := Fin 256

/-- Little-endian unsigned integer made of the `width` bytes at `offset`. -/
def readLE (mem : ℕ → Byte) (offset : ℕ) : ℕ → ℕ
  | 0 => 0
  | width + 1 => (mem offset).val + 256 * readLE mem (offset + 1) width

/-- Two's-complement reading of an unsigned `bits`-bit pattern. -/
def toSigned (bits : ℕ) (u : ℕ) : ℤ :=
  if u < 2 ^ (bits - 1) then (u : ℤ) else (u : ℤ) - 2 ^ bits

/-- Size in bytes of the element type through which `DecodeSample` indexes the frame
(`float`, `int16_t`, `int32_t`); 0 where it reads nothing. -/
def sampleWidth : SampleFormat → ℕ
  | SampleFormat.kFloat32 => 4
  | SampleFormat.kInt16 => 2
  | SampleFormat.kInt32 => 4
  | SampleFormat.kUnknown => 0

/-- The local `channel` of `DecodeSample` (lines 114-115). -/
def clampedChannel (source_channel : ℕ) (format : InputFormatInfo) : ℕ :=
  min source_channel ((format.channels - 1) % 2 ^ 16)

/-- Source function `DecodeSample`; `frame_start = none` is the null pointer, otherwise
the memory seen from `frame_start`. -/
def DecodeSample (frame_start : Option (ℕ → Byte)) (source_channel : ℕ)
    (format : InputFormatInfo) : F32 :=
  match frame_start with
  | none => F32.zero
  | some mem =>
    if format.channels = 0 then F32.zero
    else
      let channel := clampedChannel source_channel format
      match format.sample_format with
      | SampleFormat.kFloat32 => F32.ofBits (readLE mem (4 * channel) 4)
      | SampleFormat.kInt16 =>
        (F32.ofInt (toSigned 16 (readLE mem (2 * channel) 2))).divConst 32768
      | SampleFormat.kInt32 =>
        let value := toSigned 32 (readLE mem (4 * channel) 4)
        if format.valid_bits_per_sample = 24 ∧ 24 ≤ format.bits_per_sample then
          (F32.ofInt (value >>> (8 : ℕ))).divConst 8388608
        else (F32.ofInt value).divConst 2147483648
      | SampleFormat.kUnknown => F32.zero

/-- Byte offsets `[start, stop)` relative to `frame_start` that `DecodeSample` reads
(element `channel` of an array of `sampleWidth` byte elements); `none` where it returns
without reading. -/
def DecodeSample.readRange (source_channel : ℕ) (format : InputFormatInfo) :
    Option (ℕ × ℕ) :=
  if format.channels = 0 ∨ format.sample_format = SampleFormat.kUnknown then none
  else
    let channel := clampedChannel source_channel format
    let width := sampleWidth format.sample_format
    some (width * channel, width * channel + width)

/-- The local `block_align` of the capture loop (lines 473-474), a `uint16_t`. -/
def block_align (input_format : InputFormatInfo) : ℕ :=
  (input_format.channels * (input_format.bits_per_sample / 8)) % 2 ^ 16

/-! ## Engine state (wasapi_loopback.h) -/

/-- Source structure `CaptureConfig`. -/
structure CaptureConfig where
  target_sample_rate : ℕ := 48000
  target_channels : ℕ := 2
  frame_ms : ℕ := 20
deriving DecidableEq, Repr

/-- The field widths of `CaptureConfig` (all `uint32_t`). -/
def CaptureConfig.WellTyped (config : CaptureConfig) : Prop :=
  config.target_sample_rate < 2 ^ 32 ∧ config.target_channels < 2 ^ 32 ∧
  config.frame_ms < 2 ^ 32

/-- One invocation of the registered `ChunkCallback`: the samples, the sample rate, the
channel count and the sequence number it is given (the timestamp is real time and is
left out). -/
structure Delivery where
  samples : List ℤ
  sample_rate : ℕ
  channels : ℕ
  sequence : ℕ
deriving DecidableEq, Repr

/-- The members of `WasapiLoopbackCapture`, together with the local `pending_samples`
of the capture thread of the current session and two observation logs of that session:
`emit_log` lists the arguments of the calls of `emit_chunk` in order, `delivered` the
invocations of the chunk callback in order.  `thread_joinable` is
`capture_thread_.joinable()`.  The member `chunk_callback_` is written by other threads
at any time; what the capture thread finds there is given by `Environment`. -/
structure Capture where
  config_ : CaptureConfig := {}
  thread_joinable : Bool := false
  running_ : Bool := false
  last_error_ : String := ""
  captured_input_frames_ : ℕ := 0
  emitted_output_frames_ : ℕ := 0
  emitted_chunks_ : ℕ := 0
  dropped_chunks_ : ℕ := 0
  silent_input_frames_ : ℕ := 0
  input_sample_rate_ : ℕ := 0
  chunk_sequence_ : ℕ := 0
  resample_accumulator_ : ℕ := 0
  last_left_sample_ : F32 := F32.zero
  last_right_sample_ : F32 := F32.zero
  pending_samples : List ℤ := []
  emit_log : List (List ℤ) := []
  delivered : List Delivery := []

/-- What the capture thread does not control: the value `lrintf` yields on a NaN, and
whether it finds a chunk callback registered at its `k`-th call of `emit_chunk` in the
session (`k` counted from 0). -/
structure Environment where
  lrintf_unspecified : ℤ
  sink_registered : ℕ → Bool

/-! ## Start (wasapi_loopback.cc, lines 154-190) -/

/-- Source function `WasapiLoopbackCapture::Start`.  `spawn_error` is the message of the
exception thrown by the `std::thread` constructor, if it throws.  The result is the new
state, the returned flag and the text written to `*error`; it is `none` when the
assignment to `capture_thread_` finds the old thread still joinable, which ends the
process through `std::terminate`.  The new thread starts with an empty
`pending_samples`, and the observation logs of the session start empty. -/
def Start (config : CaptureConfig) (spawn_error : Option String) (c : Capture) :
    Option (Capture × Bool × Option String) :=
  if c.running_ then
    some (c, false, some "System audio capture is already running.")
  else
    let config_ : CaptureConfig := config
    let config_ :=
      if config_.target_sample_rate = 0 then { config_ with target_sample_rate := 48000 }
      else config_
    let config_ :=
      if config_.target_channels = 0 then { config_ with target_channels := 2 } else config_
    let config_ := if config_.frame_ms = 0 then { config_ with frame_ms := 20 } else config_
    let c : Capture :=
      { c with
        config_ := config_
        resample_accumulator_ := 0
        last_left_sample_ := F32.zero
        last_right_sample_ := F32.zero
        captured_input_frames_ := 0
        emitted_output_frames_ := 0
        emitted_chunks_ := 0
        dropped_chunks_ := 0
        silent_input_frames_ := 0
        input_sample_rate_ := 0
        chunk_sequence_ := 0
        last_error_ := ""
        running_ := true }
    match spawn_error with
    | some what =>
      some ({ c with running_ := false, last_error_ := what }, false, some what)
    | none =>
      if c.thread_joinable then none
      else
        some ({ c with thread_joinable := true, pending_samples := [], emit_log := [],
                       delivered := [] }, true, none)

/-! ## The capture thread after negotiation (wasapi_loopback.cc, lines 394-519) -/

/-- The local `chunk_frames` (lines 396-397); the product is a `uint32_t` product. -/
def chunk_frames (config_ : CaptureConfig) : ℕ :=
  max 1 ((config_.target_sample_rate * config_.frame_ms) % 2 ^ 32 / 1000)

/-- The local `chunk_samples` (line 398); the product is a `size_t` product. -/
def chunk_samples (config_ : CaptureConfig) : ℕ :=
  (chunk_frames config_ * config_.target_channels) % 2 ^ 64

/-- The lambda `emit_chunk` (lines 403-419); `callback_copy` tells whether the copy of
`chunk_callback_` taken under the lock holds a callback. -/
def emit_chunk (callback_copy : Bool) (c : Capture) (chunk_samples_vec : List ℤ) :
    Capture :=
  let c := { c with emit_log := c.emit_log ++ [chunk_samples_vec] }
  if !callback_copy then
    { c with dropped_chunks_ := c.dropped_chunks_ + 1 }
  else
    let seq := c.chunk_sequence_ + 1
    { c with
      chunk_sequence_ := seq
      delivered := c.delivered ++
        [{ samples := chunk_samples_vec
           sample_rate := c.config_.target_sample_rate
           channels := c.config_.target_channels
           sequence := seq }]
      emitted_chunks_ := c.emitted_chunks_ + 1 }

/-- The `while` loop of `push_output_frame` (lines 428-434), run for at most `bound`
iterations. -/
def drainPending (env : Environment) (bound : ℕ) (c : Capture) : Option Capture :=
  if chunk_samples c.config_ ≤ c.pending_samples.length then
    match bound with
    | 0 => none
    | bound + 1 =>
      let chunk := c.pending_samples.take (chunk_samples c.config_)
      let c := { c with pending_samples := c.pending_samples.drop (chunk_samples c.config_) }
      drainPending env bound (emit_chunk (env.sink_registered c.emit_log.length) c chunk)
  else some c

/-- The lambda `push_output_frame` (lines 421-435).  Every iteration of its loop removes
`chunk_samples` samples, so the loop either exits within `pending_samples.size()`
iterations or never. -/
def push_output_frame (env : Environment) (left right : F32) (c : Capture) :
    Option Capture :=
  let c := { c with
    pending_samples := c.pending_samples ++ [FloatToInt16 env.lrintf_unspecified left] }
  let c :=
    if 1 < c.config_.target_channels then
      { c with
        pending_samples := c.pending_samples ++ [FloatToInt16 env.lrintf_unspecified right] }
    else c
  let c := { c with emitted_output_frames_ := c.emitted_output_frames_ + 1 }
  drainPending env c.pending_samples.length c

/-- The `while` loop of the rate converter (lines 499-502), run for at most `bound`
iterations. -/
def resampleLoop (env : Environment) (input_rate : ℕ) (bound : ℕ) (c : Capture) :
    Option Capture :=
  if input_rate ≤ c.resample_accumulator_ then
    match bound with
    | 0 => none
    | bound + 1 =>
      (push_output_frame env c.last_left_sample_ c.last_right_sample_ c).bind fun c =>
        resampleLoop env input_rate bound
          { c with resample_accumulator_ := c.resample_accumulator_ - input_rate }
  else some c

/-- The rate converter step for one decoded frame (lines 490-502).  Every iteration of
its loop lowers the accumulator by `input_rate`, so the loop either exits within
`resample_accumulator_` iterations or never. -/
def convertFrame (env : Environment) (input_rate : ℕ) (left right : F32) (c : Capture) :
    Option Capture :=
  if input_rate = c.config_.target_sample_rate then
    push_output_frame env left right c
  else
    let c := { c with
      last_left_sample_ := left
      last_right_sample_ := right
      resample_accumulator_ := c.resample_accumulator_ + c.config_.target_sample_rate }
    resampleLoop env input_rate c.resample_accumulator_ c

/-- The decoding of frame `frame_index` of a buffer (lines 477-488); `data = none` is the
null pointer. -/
def decodeFrame (input_format : InputFormatInfo) (is_silent : Bool)
    (data : Option (ℕ → Byte)) (frame_index : ℕ) : F32 × F32 :=
  match is_silent, data with
  | false, some mem =>
    let frame_start : ℕ → Byte := fun i => mem (frame_index * block_align input_format + i)
    let left := DecodeSample (some frame_start) 0 input_format
    let right :=
      if 1 < input_format.channels then DecodeSample (some frame_start) 1 input_format
      else left
    (left, right)
  | _, _ => (F32.zero, F32.zero)

/-- The body of the `for` loop over the frames of a buffer (lines 477-502). -/
def processFrame (env : Environment) (input_format : InputFormatInfo) (is_silent : Bool)
    (data : Option (ℕ → Byte)) (frame_index : ℕ) (c : Capture) : Option Capture :=
  let frame := decodeFrame input_format is_silent data frame_index
  convertFrame env input_format.sample_rate frame.1 frame.2 c

/-- The `for` loop of lines 476-503 from `frame_index` on, with `remaining` frames left. -/
def frameLoop (env : Environment) (input_format : InputFormatInfo) (is_silent : Bool)
    (data : Option (ℕ → Byte)) : (frame_index remaining : ℕ) → Capture → Option Capture
  | _, 0, c => some c
  | frame_index, remaining + 1, c =>
    (processFrame env input_format is_silent data frame_index c).bind
      (frameLoop env input_format is_silent data (frame_index + 1) remaining)

/-- What a successful `GetBuffer` hands to the capture loop (line 459). -/
structure CaptureBuffer where
  data : Option (ℕ → Byte)
  num_frames : ℕ
  flags : ℕ

/-- The processing of one buffer obtained from `GetBuffer` (lines 466-503). -/
def processBuffer (env : Environment) (input_format : InputFormatInfo) (buffer : CaptureBuffer)
    (c : Capture) : Option Capture :=
  let is_silent : Bool := decide ((buffer.flags &&& AUDCLNT_BUFFERFLAGS_SILENT) ≠ 0)
  let c := { c with captured_input_frames_ := c.captured_input_frames_ + buffer.num_frames }
  let c :=
    if is_silent then
      { c with silent_input_frames_ := c.silent_input_frames_ + buffer.num_frames }
    else c
  frameLoop env input_format is_silent buffer.data 0 buffer.num_frames c

/-- The processing of the successive buffers of a session. -/
def processBuffers (env : Environment) (input_format : InputFormatInfo) :
    List CaptureBuffer → Capture → Option Capture
  | [], c => some c
  | buffer :: rest, c =>
    (processBuffer env input_format buffer c).bind (processBuffers env input_format rest)

/-- The successive calls of `push_output_frame` on a list of frames. -/
def pushFrames (env : Environment) : List (F32 × F32) → Capture → Option Capture
  | [], c => some c
  | frame :: rest, c => (push_output_frame env frame.1 frame.2 c).bind (pushFrames env rest)

/-- The successive rate converter steps on a list of decoded frames. -/
def convertFrames (env : Environment) (input_rate : ℕ) :
    List (F32 × F32) → Capture → Option Capture
  | [], c => some c
  | frame :: rest, c =>
    (convertFrame env input_rate frame.1 frame.2 c).bind (convertFrames env input_rate rest)

/-- The successive calls of `emit_chunk` on a list of chunks, each call finding a
callback or not as the flag paired with its chunk tells. -/
def emitChunks : List (Bool × List ℤ) → Capture → Capture
  | [], c => c
  | call :: rest, c => emitChunks rest (emit_chunk call.1 c call.2)

/-- The samples `push_output_frame` appends for one frame (lines 422-425). -/
def frameSamples (env : Environment) (config_ : CaptureConfig) (frame : F32 × F32) :
    List ℤ :=
  if 1 < config_.target_channels then
    [FloatToInt16 env.lrintf_unspecified frame.1, FloatToInt16 env.lrintf_unspecified frame.2]
  else [FloatToInt16 env.lrintf_unspecified frame.1]

/-! ## IsRunning, GetStats, SetError (wasapi_loopback.cc, lines 203-234) -/

/-- Source structure `CaptureStats` (wasapi_loopback.h). -/
structure CaptureStats where
  captured_input_frames : ℕ := 0
  emitted_output_frames : ℕ := 0
  emitted_chunks : ℕ := 0
  dropped_chunks : ℕ := 0
  silent_input_frames : ℕ := 0
  input_sample_rate : ℕ := 0
  output_sample_rate : ℕ := 0
  output_channels : ℕ := 0
  chunk_frame_ms : ℕ := 0
  running : Bool := false
  last_error : String := ""
deriving DecidableEq, Repr

/-- Source function `WasapiLoopbackCapture::IsRunning`. -/
def IsRunning (c : Capture) : Bool := c.running_

/-- Source function `WasapiLoopbackCapture::GetStats`. -/
def GetStats (c : Capture) : CaptureStats :=
  { captured_input_frames := c.captured_input_frames_
    emitted_output_frames := c.emitted_output_frames_
    emitted_chunks := c.emitted_chunks_
    dropped_chunks := c.dropped_chunks_
    silent_input_frames := c.silent_input_frames_
    input_sample_rate := c.input_sample_rate_
    output_sample_rate := c.config_.target_sample_rate
    output_channels := c.config_.target_channels
    chunk_frame_ms := c.config_.frame_ms
    running := c.running_
    last_error := c.last_error_ }

/-- Source function `WasapiLoopbackCapture::SetError`. -/
def SetError (message : String) (c : Capture) : Capture :=
  { c with last_error_ := message }

/-- Source function `HResultToString` (lines 140-144); `hr` is the 32-bit pattern of the
`HRESULT`, printed in hexadecimal. -/
def HResultToString (stage : String) (hr : ℕ) : String :=
  stage ++ " failed (HRESULT=0x" ++ String.mk (Nat.toDigits 16 hr) ++ ")"

/-! ## The capture thread as a whole (wasapi_loopback.cc, lines 236-537) -/

/-- Where the capture thread is in `CaptureThreadMain`: `absent` when no thread is
executing it (none was spawned, or it has returned), `negotiating` before the negotiated
rate is stored (lines 237-380), `capturing` from there on (lines 381-536). -/
inductive ThreadPhase where
  | absent
  | negotiating
  | capturing (input_format : InputFormatInfo)
deriving DecidableEq

/-- The engine object together with the phase of its capture thread. -/
structure Engine where
  capture : Capture := {}
  phase : ThreadPhase := ThreadPhase.absent

/-- The failures after which `CaptureThreadMain` records an error and returns: a
platform call of the named stage that fails with an `HRESULT`, the failure of
`CreateEvent`, and an unsupported mix format. -/
inductive Failure where
  | hresult (stage : String) (hr : ℕ)
  | createEvent
  | unsupportedFormat
deriving DecidableEq

/-- The text a failure records through `SetError`. -/
def Failure.message : Failure → String
  | Failure.hresult stage hr => HResultToString stage hr
  | Failure.createEvent => "CreateEvent failed for loopback capture."
  | Failure.unsupportedFormat => "Unsupported loopback mix format."

/-- What the capture thread does, as seen from the state of the engine:
`failed` is any of the exits on a failure (`SetError`, the running flag cleared, return;
after a failure in the loop the flag is cleared at line 532 at the latest),
`negotiated` the storing of the negotiated rate (line 381) once the format has passed the
check of line 370, `buffer` the processing of one buffer (lines 459-517), `exit` the
return after the loop has found the running flag false (lines 521-537). -/
inductive ThreadEvent where
  | failed (failure : Failure)
  | negotiated (input_format : InputFormatInfo)
  | buffer (buffer : CaptureBuffer)
  | exit

/-- One event of the capture thread; `none` where the thread cannot do that in its
phase (or never comes back from the processing of the buffer). -/
def threadStep (env : Environment) (event : ThreadEvent) (e : Engine) : Option Engine :=
  match event, e.phase with
  | ThreadEvent.failed failure, ThreadPhase.negotiating
  | ThreadEvent.failed failure, ThreadPhase.capturing _ =>
    some { capture := { SetError failure.message e.capture with running_ := false }
           phase := ThreadPhase.absent }
  | ThreadEvent.negotiated input_format, ThreadPhase.negotiating =>
    if formatAccepted input_format then
      some { capture := { e.capture with input_sample_rate_ := input_format.sample_rate }
             phase := ThreadPhase.capturing input_format }
    else none
  | ThreadEvent.buffer buffer, ThreadPhase.capturing input_format =>
    (processBuffer env input_format buffer e.capture).map fun c =>
      { capture := c, phase := ThreadPhase.capturing input_format }
  | ThreadEvent.exit, ThreadPhase.capturing _ =>
    if e.capture.running_ then none
    else some { capture := { e.capture with running_ := false }, phase := ThreadPhase.absent }
  | _, _ => none

/-- The successive events of the capture thread. -/
def runThread (env : Environment) : List ThreadEvent → Engine → Option Engine
  | [], e => some e
  | event :: rest, e => (threadStep env event e).bind (runThread env rest)

/-! ## Start and Stop on the engine with its thread (lines 154-201) -/

/-- The call of `Start` on the engine: where it spawns the thread, the thread begins
`CaptureThreadMain`. -/
def startEngine (config : CaptureConfig) (spawn_error : Option String) (e : Engine) :
    Option (Engine × Bool × Option String) :=
  (Start config spawn_error e.capture).map fun result =>
    ({ capture := result.1
       phase := if result.2.1 then ThreadPhase.negotiating else e.phase },
      result.2.1, result.2.2)

/-- Source function `WasapiLoopbackCapture::Stop`.  `tail` is what the capture thread
still does between the clearing of the running flag and its return, during which `join`
blocks; the result is `none` when `tail` is not a run of the thread that ends with its
return, for `join` comes back only then. -/
def Stop (env : Environment) (tail : List ThreadEvent) (e : Engine) : Option Engine :=
  if !e.capture.running_ && !e.capture.thread_joinable then some e
  else
    let e : Engine := { e with capture := { e.capture with running_ := false } }
    if e.capture.thread_joinable then
      match runThread env tail e with
      | some e' =>
        match e'.phase with
        | ThreadPhase.absent =>
          some { e' with capture := { e'.capture with thread_joinable := false } }
        | _ => none
      | none => none
    else some e

/-! ## The add-on (addon.cc) -/

/-- The globals of the add-on: the engine `g_capture` (created on first use by
`EnsureCapture`, here present from the beginning in its freshly constructed state) and
whether `g_chunk_tsf` holds a thread-safe function.  The callback that
`InstallChunkBridge` registers on the engine is part of the `Environment`. -/
structure Addon where
  g_capture : Engine := {}
  g_chunk_tsf : Bool := false

/-- Source function `ToStatsObject` (addon.cc, lines 49-68): the JavaScript object made
of the snapshot, field by field (the counters become `double`s, exact below `2^53`). -/
def ToStatsObject (stats : CaptureStats) : CaptureStats := stats

/-- Source function `SetChunkCallback` of the add-on (lines 120-143) called with a
function. -/
def Addon.SetChunkCallback (a : Addon) : Addon := { a with g_chunk_tsf := true }

/-- Source function `Start` of the add-on (lines 145-177); `config` is what `ParseConfig`
makes of the argument.  The result is the new state and either the thrown error or the
returned stats object; `none` when the process ends in the engine. -/
def Addon.Start (config : CaptureConfig) (spawn_error : Option String) (a : Addon) :
    Option (Addon × Except String CaptureStats) :=
  if !a.g_chunk_tsf then
    some (a, Except.error "Chunk callback is not set. Call setChunkCallback first.")
  else if IsRunning a.g_capture.capture then
    some (a, Except.ok (ToStatsObject (SystemAudio.GetStats a.g_capture.capture)))
  else
    match startEngine config spawn_error a.g_capture with
    | none => none
    | some (e, started, error) =>
      if !started then
        some ({ a with g_capture := e },
          Except.error (if error.getD "" = "" then "Failed to start system audio capture."
            else error.getD ""))
      else
        some ({ a with g_capture := e }, Except.ok (ToStatsObject (SystemAudio.GetStats e.capture)))

/-- Source function `Stop` of the add-on (lines 179-184). -/
def Addon.Stop (env : Environment) (tail : List ThreadEvent) (a : Addon) :
    Option (Addon × CaptureStats) :=
  (SystemAudio.Stop env tail a.g_capture).map fun e =>
    ({ a with g_capture := e }, ToStatsObject (SystemAudio.GetStats e.capture))

/-- Source function `GetStats` of the add-on (lines 186-190). -/
def Addon.GetStats (a : Addon) : CaptureStats :=
  ToStatsObject (SystemAudio.GetStats a.g_capture.capture)

/-! ## The lifecycle -/

/-- The states of the engine that calls of `Start` (with configurations of 32-bit
fields) and `Stop` and the events of the capture thread lead to, from the freshly
constructed engine, in any order. -/
inductive Reachable (env : Environment) : Engine → Prop where
  | init : Reachable env {}
  | start (config : CaptureConfig) (spawn_error : Option String) (e e' : Engine)
      (started : Bool) (error : Option String) :
      Reachable env e → config.WellTyped →
      startEngine config spawn_error e = some (e', started, error) → Reachable env e'
  | stop (tail : List ThreadEvent) (e e' : Engine) :
      Reachable env e → Stop env tail e = some e' → Reachable env e'
  | thread (event : ThreadEvent) (e e' : Engine) :
      Reachable env e → threadStep env event e = some e' → Reachable env e'

/-! ## Auxiliary definitions for the proofs -/

/-- What a successful `Start` leaves behind. -/
structure Started (config : CaptureConfig) (c : Capture) : Prop where
  rate : c.config_.target_sample_rate =
    if config.target_sample_rate = 0 then 48000 else config.target_sample_rate
  channels : c.config_.target_channels =
    if config.target_channels = 0 then 2 else config.target_channels
  frame_ms : c.config_.frame_ms = if config.frame_ms = 0 then 20 else config.frame_ms
  captured : c.captured_input_frames_ = 0
  emitted : c.emitted_output_frames_ = 0
  chunks : c.emitted_chunks_ = 0
  dropped : c.dropped_chunks_ = 0
  silent : c.silent_input_frames_ = 0
  sequence : c.chunk_sequence_ = 0
  accumulator : c.resample_accumulator_ = 0
  pending : c.pending_samples = []
  emit_log : c.emit_log = []
  delivered : c.delivered = []
  running : c.running_ = true

/-- One iteration of the loop of `push_output_frame`. -/
def drainStep (env : Environment) (c : Capture) : Capture :=
  emit_chunk (env.sink_registered c.emit_log.length)
    { c with pending_samples := c.pending_samples.drop (chunk_samples c.config_) }
    (c.pending_samples.take (chunk_samples c.config_))

/-- The successive calls of `emit_chunk` of a session on a list of chunks, each finding
a callback or not as the environment tells. -/
def emitRun (env : Environment) : List (List ℤ) → Capture → Capture
  | [], c => c
  | chunk :: rest, c =>
    emitRun env rest (emit_chunk (env.sink_registered c.emit_log.length) c chunk)

/-- What `emit_chunk` reads and writes. -/
def Capture.sinkView (c : Capture) :
    ℕ × ℕ × ℕ × List Delivery × List (List ℤ) × ℕ × ℕ :=
  (c.chunk_sequence_, c.emitted_chunks_, c.dropped_chunks_, c.delivered, c.emit_log,
    c.config_.target_sample_rate, c.config_.target_channels)

/-- The effect on the state `c` of capturing `captured` input frames, `silent` of them
in silent buffers, and pushing the output frames `frames`, ending in `c'`: the calls of
`emit_chunk` are a run on chunks of `chunk_samples` samples each, and these chunks
followed by what is pending are what was pending followed by the samples of the
frames. -/
structure Pushed (env : Environment) (c c' : Capture) (frames : List (F32 × F32))
    (captured silent : ℕ) : Prop where
  config : c'.config_ = c.config_
  emitted : c'.emitted_output_frames_ = c.emitted_output_frames_ + frames.length
  captured : c'.captured_input_frames_ = c.captured_input_frames_ + captured
  silent : c'.silent_input_frames_ = c.silent_input_frames_ + silent
  short : c.pending_samples.length < chunk_samples c.config_ →
    c'.pending_samples.length < chunk_samples c.config_
  chunks : ∃ chunks : List (List ℤ),
    c'.sinkView = (emitRun env chunks c).sinkView ∧
    (∀ chunk ∈ chunks, chunk.length = chunk_samples c.config_) ∧
    chunks.flatten ++ c'.pending_samples =
      c.pending_samples ++ frames.flatMap (frameSamples env c.config_)

/-- The members that neither `emit_chunk` nor the chunking touches. -/
def Capture.coreView (c : Capture) :
    CaptureConfig × ℕ × ℕ × ℕ × ℕ × F32 × F32 × Bool × Bool × String × ℕ :=
  (c.config_, c.captured_input_frames_, c.emitted_output_frames_, c.silent_input_frames_,
    c.resample_accumulator_, c.last_left_sample_, c.last_right_sample_, c.running_,
    c.thread_joinable, c.last_error_, c.input_sample_rate_)

/-- The state in which `push_output_frame` enters its loop. -/
def pushPrelude (env : Environment) (left right : F32) (c : Capture) : Capture :=
  { c with
    pending_samples := c.pending_samples ++ frameSamples env c.config_ (left, right)
    emitted_output_frames_ := c.emitted_output_frames_ + 1 }

/-- The invariant of the sink side of a session: the deliveries so far carry the
sequence numbers 1, 2, ... in order, and the counters count them. -/
structure Dense (c : Capture) : Prop where
  sequence : c.delivered.map (fun d => d.sequence) = List.range' 1 c.delivered.length
  counter : c.chunk_sequence_ = c.delivered.length
  chunks : c.emitted_chunks_ = c.delivered.length

/-- An environment with a callback registered throughout, for the examples. -/
def exampleEnv : Environment := ⟨0, fun _ => true⟩

/-- The state right after `Start` with the default configuration on a fresh engine. -/
def exampleStarted : Capture := { thread_joinable := true, running_ := true }

/-- The output frames the rate converter pushes for a list of decoded frames, from the
accumulator value `acc`: each frame once at equal rates, otherwise each frame as many
times as `input_rate` fits into the accumulator after `output_rate` is added. -/
def heldFrames (input_rate output_rate : ℕ) : ℕ → List (F32 × F32) → List (F32 × F32)
  | _, [] => []
  | acc, frame :: rest =>
    if input_rate = output_rate then frame :: heldFrames input_rate output_rate acc rest
    else
      List.replicate ((acc + output_rate) / input_rate) frame ++
        heldFrames input_rate output_rate ((acc + output_rate) % input_rate) rest

/-- The accumulator value after the rate converter has taken `n` frames from the
accumulator value `acc`: untouched at equal rates, otherwise `output_rate` is added and
`input_rate` taken off as often as it fits, frame after frame. -/
def heldAccumulator (input_rate output_rate : ℕ) : ℕ → ℕ → ℕ
  | acc, 0 => acc
  | acc, n + 1 =>
    heldAccumulator input_rate output_rate
      (if input_rate = output_rate then acc else (acc + output_rate) % input_rate) n

/-- The frames of a buffer as the capture loop decodes them. -/
def decodedFrames (input_format : InputFormatInfo) (buffer : CaptureBuffer) :
    List (F32 × F32) :=
  (List.range' 0 buffer.num_frames).map
    (decodeFrame input_format
      (decide ((buffer.flags &&& AUDCLNT_BUFFERFLAGS_SILENT) ≠ 0)) buffer.data)

/-- The number of frames of a buffer that count as silent. -/
def silentFrames (buffer : CaptureBuffer) : ℕ :=
  if (buffer.flags &&& AUDCLNT_BUFFERFLAGS_SILENT) ≠ 0 then buffer.num_frames else 0

/-- The 16-bit PCM stereo format at 48000 Hz, for the examples. -/
def exampleFormat : InputFormatInfo :=
  { sample_format := SampleFormat.kInt16, sample_rate := 48000, channels := 2,
    bits_per_sample := 16, valid_bits_per_sample := 16 }

/-- A non-silent buffer of two frames of zero bytes, for the examples. -/
def exampleBuffer : CaptureBuffer := ⟨some (fun _ => 0), 2, 0⟩

/-- A 32-bit float stereo format at 48000 Hz, for the examples. -/
def exampleFloatFormat : InputFormatInfo :=
  { sample_format := SampleFormat.kFloat32, sample_rate := 48000, channels := 2,
    bits_per_sample := 32, valid_bits_per_sample := 32 }

/-- A frame whose first four bytes `00 00 00 40` are the `float` 2.0. -/
def exampleFrameTwo : ℕ → Byte := fun i => if i = 3 then 0x40 else 0

/-- The format descriptor of packed 24-bit PCM stereo at 48000 Hz: `WAVE_FORMAT_EXTENSIBLE`
with the PCM subtype, 24-bit containers, block alignment 6. -/
def examplePacked24 : WAVEFORMATEXTENSIBLE :=
  { wFormatTag := WAVE_FORMAT_EXTENSIBLE, nChannels := 2, nSamplesPerSec := 48000,
    nAvgBytesPerSec := 288000, nBlockAlign := 6, wBitsPerSample := 24, cbSize := 22,
    wValidBitsPerSample := 24, dwChannelMask := 3, SubFormat := KSDATAFORMAT_SUBTYPE_PCM }

/-- Memory that is zero everywhere. -/
def exampleZeroMemory : ℕ → Byte := fun _ => 0

/-- Memory that is zero but for the byte `40` at offset 7. -/
def exampleByteSeven : ℕ → Byte := fun i => if i = 7 then 0x40 else 0

/-- What `ParseInputFormat` makes of `examplePacked24`. -/
def examplePacked24Info : InputFormatInfo :=
  { sample_format := SampleFormat.kInt32, sample_rate := 48000, channels := 2,
    bits_per_sample := 24, valid_bits_per_sample := 24 }

/-- What holds of every state of the lifecycle: the stored configuration has a nonzero
32-bit channel count, a capturing thread has a format that passed the check of line 370,
and a thread that is executing is joinable. -/
structure Sound (e : Engine) : Prop where
  channels_ne : e.capture.config_.target_channels ≠ 0
  channels_lt : e.capture.config_.target_channels < 2 ^ 32
  format : ∀ input_format, e.phase = ThreadPhase.capturing input_format →
    formatAccepted input_format = true
  joinable : e.phase ≠ ThreadPhase.absent → e.capture.thread_joinable = true

/-- No counter of `c` is lower in `c'`, the configuration is the same, and the last-error
text is the same or the text of a failure. -/
structure NoReset (c c' : Capture) : Prop where
  config : c'.config_ = c.config_
  captured : c.captured_input_frames_ ≤ c'.captured_input_frames_
  emitted : c.emitted_output_frames_ ≤ c'.emitted_output_frames_
  chunks : c.emitted_chunks_ ≤ c'.emitted_chunks_
  dropped : c.dropped_chunks_ ≤ c'.dropped_chunks_
  silent : c.silent_input_frames_ ≤ c'.silent_input_frames_
  sequence : c.chunk_sequence_ ≤ c'.chunk_sequence_
  last_error : c'.last_error_ = c.last_error_ ∨
    ∃ failure : Failure, c'.last_error_ = failure.message

/-- The engine after `Start` with the default configuration on a fresh engine. -/
def exampleEngineStarted : Engine :=
  { capture := exampleStarted, phase := ThreadPhase.negotiating }

/-- The engine after the capture thread of `exampleEngineStarted` has failed to find a
default render endpoint and has returned. -/
def exampleEngineFailed : Engine :=
  { capture := { exampleStarted with
      running_ := false
      last_error_ := "GetDefaultAudioEndpoint failed (HRESULT=0x80070490)" }
    phase := ThreadPhase.absent }

/-- The members that only `Start`, `Stop` and the entry and exits of the capture thread
write. -/
def Capture.lifeView (c : Capture) : Bool × Bool × String × ℕ :=
  (c.running_, c.thread_joinable, c.last_error_, c.input_sample_rate_)

/-- The configuration `Start` stores for a given one (lines 160-163). -/
def effectiveConfig (config : CaptureConfig) : CaptureConfig :=
  { target_sample_rate :=
      if config.target_sample_rate = 0 then 48000 else config.target_sample_rate
    target_channels := if config.target_channels = 0 then 2 else config.target_channels
    frame_ms := if config.frame_ms = 0 then 20 else config.frame_ms }

/-! ## Lemmas -/

theorem Start_started {config : CaptureConfig} {spawn_error : Option String}
    {c0 c : Capture} {error : Option String}
    (h : Start config spawn_error c0 = some (c, true, error)) : Started config c := by
  unfold Start at h
  split at h
  · simp at h
  · cases spawn_error with
    | some what => simp at h
    | none =>
      simp only at h
      split at h
      · simp at h
      · simp only [Option.some.injEq, Prod.mk.injEq, and_true, true_and] at h
        obtain ⟨rfl, -⟩ := h
        constructor <;> (try rfl) <;> simp only <;> split_ifs <;> simp_all

theorem Start_fresh (config : CaptureConfig) (c0 : Capture) (h1 : c0.running_ = false)
    (h2 : c0.thread_joinable = false) :
    ∃ c, Start config none c0 = some (c, true, none) := by
  simp [Start, h1, h2]

theorem chunk_frames_pos (config_ : CaptureConfig) : 0 < chunk_frames config_ := by
  unfold chunk_frames; omega

theorem chunk_frames_lt (config_ : CaptureConfig) : chunk_frames config_ < 2 ^ 32 := by
  unfold chunk_frames
  have : (config_.target_sample_rate * config_.frame_ms) % 2 ^ 32 < 2 ^ 32 :=
    Nat.mod_lt _ (by norm_num)
  omega

/-- Where the `uint32_t` product does not wrap, `chunk_frames` is the formula of the
specification. -/
theorem chunk_frames_of_no_wrap (config_ : CaptureConfig)
    (h : config_.target_sample_rate * config_.frame_ms < 2 ^ 32) :
    chunk_frames config_ = max 1 (config_.target_sample_rate * config_.frame_ms / 1000) := by
  unfold chunk_frames
  rw [Nat.mod_eq_of_lt h]

theorem chunk_samples_eq {config_ : CaptureConfig} (h : config_.target_channels < 2 ^ 32) :
    chunk_samples config_ = chunk_frames config_ * config_.target_channels := by
  unfold chunk_samples
  apply Nat.mod_eq_of_lt
  have h1 := chunk_frames_lt config_
  calc chunk_frames config_ * config_.target_channels
      < 2 ^ 32 * 2 ^ 32 := Nat.mul_lt_mul'' h1 h
    _ = 2 ^ 64 := by norm_num

theorem chunk_samples_pos {config_ : CaptureConfig} (h : config_.target_channels < 2 ^ 32)
    (h0 : config_.target_channels ≠ 0) : 0 < chunk_samples config_ := by
  rw [chunk_samples_eq h]
  exact Nat.mul_pos (chunk_frames_pos _) (Nat.pos_of_ne_zero h0)

theorem Started.channels_ne_zero {config : CaptureConfig} {c : Capture}
    (h : Started config c) : c.config_.target_channels ≠ 0 := by
  rw [h.channels]; split_ifs <;> omega

theorem Started.channels_lt {config : CaptureConfig} {c : Capture}
    (h : Started config c) (hw : config.WellTyped) : c.config_.target_channels < 2 ^ 32 := by
  rw [h.channels]; obtain ⟨-, h2, -⟩ := hw; split_ifs <;> omega

theorem Started.rate_ne_zero {config : CaptureConfig} {c : Capture}
    (h : Started config c) : c.config_.target_sample_rate ≠ 0 := by
  rw [h.rate]; split_ifs <;> omega

theorem Started.chunk_positive {config : CaptureConfig} {c : Capture}
    (h : Started config c) (hw : config.WellTyped) : 0 < chunk_samples c.config_ :=
  SystemAudio.chunk_samples_pos (h.channels_lt hw) h.channels_ne_zero

theorem emit_chunk_config (b : Bool) (c : Capture) (chunk : List ℤ) :
    (emit_chunk b c chunk).config_ = c.config_ := by
  unfold emit_chunk; cases b <;> rfl

theorem emit_chunk_pending (b : Bool) (c : Capture) (chunk : List ℤ) :
    (emit_chunk b c chunk).pending_samples = c.pending_samples := by
  unfold emit_chunk; cases b <;> rfl

theorem emit_chunk_emit_log (b : Bool) (c : Capture) (chunk : List ℤ) :
    (emit_chunk b c chunk).emit_log = c.emit_log ++ [chunk] := by
  unfold emit_chunk; cases b <;> rfl

theorem drainStep_config (env : Environment) (c : Capture) :
    (drainStep env c).config_ = c.config_ := by
  simp [drainStep, emit_chunk_config]

theorem drainStep_pending (env : Environment) (c : Capture) :
    (drainStep env c).pending_samples = c.pending_samples.drop (chunk_samples c.config_) := by
  simp [drainStep, emit_chunk_pending]

theorem drainStep_emit_log (env : Environment) (c : Capture) :
    (drainStep env c).emit_log =
      c.emit_log ++ [c.pending_samples.take (chunk_samples c.config_)] := by
  simp [drainStep, emit_chunk_emit_log]

theorem drainPending_done (env : Environment) (bound : ℕ) (c : Capture)
    (h : c.pending_samples.length < chunk_samples c.config_) :
    drainPending env bound c = some c := by
  unfold drainPending
  rw [if_neg (by omega)]

theorem drainPending_step (env : Environment) (bound : ℕ) (c : Capture)
    (h : chunk_samples c.config_ ≤ c.pending_samples.length) :
    drainPending env (bound + 1) c = drainPending env bound (drainStep env c) := by
  conv_lhs => unfold drainPending
  rw [if_pos h]
  rfl

/-- The drain loop exits when a chunk is not empty. -/
theorem drainPending_some (env : Environment) (bound : ℕ) :
    ∀ c : Capture, 0 < chunk_samples c.config_ → c.pending_samples.length ≤ bound →
      ∃ c', drainPending env bound c = some c' := by
  induction bound with
  | zero =>
    intro c h0 hb
    exact ⟨c, drainPending_done env 0 c (by omega)⟩
  | succ n ih =>
    intro c h0 hb
    by_cases h : chunk_samples c.config_ ≤ c.pending_samples.length
    · rw [drainPending_step env n c h]
      apply ih
      · rw [drainStep_config]; exact h0
      · rw [drainStep_pending, List.length_drop]; omega
    · exact ⟨c, drainPending_done env _ c (by omega)⟩

/-- Whatever every iteration of the drain loop preserves holds when the loop exits, and
then less than a chunk is pending. -/
theorem drainPending_inv (env : Environment) (P : Capture → Prop)
    (hstep : ∀ c, P c → chunk_samples c.config_ ≤ c.pending_samples.length →
      P (drainStep env c)) (bound : ℕ) :
    ∀ c c' : Capture, P c → drainPending env bound c = some c' →
      P c' ∧ c'.pending_samples.length < chunk_samples c'.config_ := by
  induction bound with
  | zero =>
    intro c c' hP h
    unfold drainPending at h
    split at h
    · simp at h
    · simp only [Option.some.injEq] at h; subst h; exact ⟨hP, by omega⟩
  | succ n ih =>
    intro c c' hP h
    by_cases hc : chunk_samples c.config_ ≤ c.pending_samples.length
    · rw [drainPending_step env n c hc] at h
      exact ih _ _ (hstep c hP hc) h
    · rw [drainPending_done env _ c (by omega)] at h
      simp only [Option.some.injEq] at h; subst h; exact ⟨hP, by omega⟩

theorem emit_chunk_sinkView_congr (b : Bool) {c d : Capture} (chunk : List ℤ)
    (h : c.sinkView = d.sinkView) :
    (emit_chunk b c chunk).sinkView = (emit_chunk b d chunk).sinkView := by
  simp only [Capture.sinkView, Prod.mk.injEq] at h
  obtain ⟨h1, h2, h3, h4, h5, h6, h7⟩ := h
  cases b <;> simp [emit_chunk, Capture.sinkView, h1, h2, h3, h4, h5, h6, h7]

theorem sinkView_emit_log {c d : Capture} (h : c.sinkView = d.sinkView) :
    c.emit_log = d.emit_log := by
  simp only [Capture.sinkView, Prod.mk.injEq] at h
  exact h.2.2.2.2.1

theorem emitRun_sinkView_congr (env : Environment) (chunks : List (List ℤ)) :
    ∀ {c d : Capture}, c.sinkView = d.sinkView →
      (emitRun env chunks c).sinkView = (emitRun env chunks d).sinkView := by
  induction chunks with
  | nil => intro c d h; exact h
  | cons chunk rest ih =>
    intro c d h
    simp only [emitRun]
    apply ih
    rw [sinkView_emit_log h]
    exact emit_chunk_sinkView_congr _ chunk h

theorem emitRun_append (env : Environment) (xs ys : List (List ℤ)) :
    ∀ c : Capture, emitRun env (xs ++ ys) c = emitRun env ys (emitRun env xs c) := by
  induction xs with
  | nil => intro c; rfl
  | cons x rest ih => intro c; simp only [List.cons_append, emitRun]; exact ih _

theorem emitRun_config (env : Environment) (chunks : List (List ℤ)) :
    ∀ c : Capture, (emitRun env chunks c).config_ = c.config_ := by
  induction chunks with
  | nil => intro c; rfl
  | cons x rest ih => intro c; simp only [emitRun]; rw [ih, emit_chunk_config]

theorem emitRun_emit_log (env : Environment) (chunks : List (List ℤ)) :
    ∀ c : Capture, (emitRun env chunks c).emit_log = c.emit_log ++ chunks := by
  induction chunks with
  | nil => intro c; simp [emitRun]
  | cons x rest ih => intro c; simp only [emitRun]; rw [ih, emit_chunk_emit_log]; simp

theorem Pushed.refl (env : Environment) (c : Capture) : Pushed env c c [] 0 0 where
  config := rfl
  emitted := rfl
  captured := rfl
  silent := rfl
  short := id
  chunks := ⟨[], rfl, by simp, by simp⟩

theorem Pushed.trans {env : Environment} {c1 c2 c3 : Capture} {f1 f2 : List (F32 × F32)}
    {a1 a2 b1 b2 : ℕ}
    (h1 : Pushed env c1 c2 f1 a1 b1) (h2 : Pushed env c2 c3 f2 a2 b2) :
    Pushed env c1 c3 (f1 ++ f2) (a1 + a2) (b1 + b2) where
  config := h2.config.trans h1.config
  emitted := by rw [h2.emitted, h1.emitted, List.length_append]; omega
  captured := by rw [h2.captured, h1.captured]; omega
  silent := by rw [h2.silent, h1.silent]; omega
  short := fun h => by
    have := h2.short (by rw [h1.config]; exact h1.short h)
    rwa [h1.config] at this
  chunks := by
    obtain ⟨k1, hs1, hl1, hj1⟩ := h1.chunks
    obtain ⟨k2, hs2, hl2, hj2⟩ := h2.chunks
    refine ⟨k1 ++ k2, ?_, ?_, ?_⟩
    · rw [emitRun_append, hs2]
      exact emitRun_sinkView_congr env k2 hs1
    · intro chunk hmem
      rcases List.mem_append.mp hmem with h | h
      · exact hl1 chunk h
      · rw [← h1.config]; exact hl2 chunk h
    · rw [List.flatten_append, List.append_assoc, hj2, h1.config, ← List.append_assoc, hj1,
        List.flatMap_append, List.append_assoc]

/-- The relation `Pushed` from a state does not depend on the members of that state that
the pushing neither reads nor writes. -/
theorem Pushed.of_left {env : Environment} {d c' : Capture} {frames : List (F32 × F32)}
    {a b : ℕ} (c : Capture) (a' b' : ℕ) (h : Pushed env d c' frames a b)
    (hconfig : d.config_ = c.config_) (hview : d.sinkView = c.sinkView)
    (hpending : d.pending_samples = c.pending_samples)
    (hemitted : d.emitted_output_frames_ = c.emitted_output_frames_)
    (hcaptured : d.captured_input_frames_ + a = c.captured_input_frames_ + a')
    (hsilent : d.silent_input_frames_ + b = c.silent_input_frames_ + b') :
    Pushed env c c' frames a' b' where
  config := h.config.trans hconfig
  emitted := by rw [h.emitted, hemitted]
  captured := by rw [h.captured, hcaptured]
  silent := by rw [h.silent, hsilent]
  short := by
    have := h.short
    rwa [hconfig, hpending] at this
  chunks := by
    obtain ⟨k, hs, hl, hj⟩ := h.chunks
    refine ⟨k, ?_, ?_, ?_⟩
    · rw [hs]; exact emitRun_sinkView_congr env k hview
    · rwa [hconfig] at hl
    · rwa [hconfig, hpending] at hj

/-- The relation `Pushed` to a state does not depend on the members of that state that
it does not mention. -/
theorem Pushed.of_right {env : Environment} {c c' d' : Capture}
    {frames : List (F32 × F32)} {a b : ℕ} (h : Pushed env c c' frames a b)
    (hconfig : d'.config_ = c'.config_) (hview : d'.sinkView = c'.sinkView)
    (hpending : d'.pending_samples = c'.pending_samples)
    (hemitted : d'.emitted_output_frames_ = c'.emitted_output_frames_)
    (hcaptured : d'.captured_input_frames_ = c'.captured_input_frames_)
    (hsilent : d'.silent_input_frames_ = c'.silent_input_frames_) :
    Pushed env c d' frames a b where
  config := hconfig.trans h.config
  emitted := by rw [hemitted, h.emitted]
  captured := by rw [hcaptured, h.captured]
  silent := by rw [hsilent, h.silent]
  short := by
    have := h.short
    rwa [← hpending] at this
  chunks := by
    obtain ⟨k, hs, hl, hj⟩ := h.chunks
    exact ⟨k, hview.trans hs, hl, by rw [hpending]; exact hj⟩

theorem emit_chunk_coreView (b : Bool) (c : Capture) (chunk : List ℤ) :
    (emit_chunk b c chunk).coreView = c.coreView := by
  cases b <;> rfl

theorem drainStep_coreView (env : Environment) (c : Capture) :
    (drainStep env c).coreView = c.coreView := by
  unfold drainStep
  rw [emit_chunk_coreView]
  rfl

theorem coreView_config {c d : Capture} (h : c.coreView = d.coreView) :
    c.config_ = d.config_ := by
  simp only [Capture.coreView, Prod.mk.injEq] at h
  exact h.1

/-- The drain loop: it exits, touches nothing but the pending samples and the sink, and
cuts the pending samples into chunks of `chunk_samples` samples and a shorter rest. -/
theorem drainPending_spec (env : Environment) (bound : ℕ) (c : Capture)
    (h0 : 0 < chunk_samples c.config_) (hb : c.pending_samples.length ≤ bound) :
    ∃ c', drainPending env bound c = some c' ∧
      c'.coreView = c.coreView ∧
      c'.pending_samples.length < chunk_samples c.config_ ∧
      ∃ chunks : List (List ℤ),
        c'.sinkView = (emitRun env chunks c).sinkView ∧
        (∀ chunk ∈ chunks, chunk.length = chunk_samples c.config_) ∧
        chunks.flatten ++ c'.pending_samples = c.pending_samples := by
  obtain ⟨c', hc'⟩ := drainPending_some env bound c h0 hb
  refine ⟨c', hc', ?_⟩
  have key := drainPending_inv env
    (fun d => d.coreView = c.coreView ∧
      ∃ chunks : List (List ℤ),
        d.sinkView = (emitRun env chunks c).sinkView ∧
        (∀ chunk ∈ chunks, chunk.length = chunk_samples c.config_) ∧
        chunks.flatten ++ d.pending_samples = c.pending_samples)
    ?_ bound c c' ⟨rfl, [], rfl, by simp, by simp⟩ hc'
  · obtain ⟨⟨h1, h2⟩, h3⟩ := key
    rw [coreView_config h1] at h3
    exact ⟨h1, h3, h2⟩
  · rintro d ⟨hd1, chunks, hs, hl, hj⟩ hlen
    have hcfg : d.config_ = c.config_ := coreView_config hd1
    refine ⟨(drainStep_coreView env d).trans hd1,
      chunks ++ [d.pending_samples.take (chunk_samples d.config_)], ?_, ?_, ?_⟩
    · rw [emitRun_append]
      simp only [emitRun]
      rw [← sinkView_emit_log hs]
      exact emit_chunk_sinkView_congr _ _ hs
    · intro chunk hmem
      rcases List.mem_append.mp hmem with h | h
      · exact hl chunk h
      · simp only [List.mem_singleton] at h
        subst h
        rw [List.length_take, hcfg]
        rw [hcfg] at hlen
        omega
    · rw [drainStep_pending, List.flatten_append]
      simp only [List.flatten_cons, List.flatten_nil, List.append_nil]
      rw [List.append_assoc, List.take_append_drop, hj]

theorem push_output_frame_eq (env : Environment) (left right : F32) (c : Capture) :
    push_output_frame env left right c =
      drainPending env (pushPrelude env left right c).pending_samples.length
        (pushPrelude env left right c) := by
  unfold push_output_frame pushPrelude frameSamples
  by_cases h : 1 < c.config_.target_channels
  · simp [h]
  · simp [h]

/-- The call `push_output_frame(left, right)` returns and has pushed one frame. -/
theorem push_output_frame_spec (env : Environment) (left right : F32) (c : Capture)
    (h0 : 0 < chunk_samples c.config_) :
    ∃ c', push_output_frame env left right c = some c' ∧
      Pushed env c c' [(left, right)] 0 0 ∧
      c'.pending_samples.length < chunk_samples c.config_ ∧
      c'.resample_accumulator_ = c.resample_accumulator_ ∧
      c'.last_left_sample_ = c.last_left_sample_ ∧
      c'.last_right_sample_ = c.last_right_sample_ := by
  rw [push_output_frame_eq]
  obtain ⟨c', hc', hcore, hshort, chunks, hs, hl, hj⟩ :=
    drainPending_spec env _ (pushPrelude env left right c) h0 le_rfl
  refine ⟨c', hc', ?_, hshort, ?_, ?_, ?_⟩
  · simp only [Capture.coreView, pushPrelude, Prod.mk.injEq] at hcore
    obtain ⟨e1, e2, e3, e4, -⟩ := hcore
    refine ⟨e1, by simpa using e3, by simpa using e2, by simpa using e4, fun _ => hshort,
      chunks, ?_, hl, ?_⟩
    · rw [hs]
      exact emitRun_sinkView_congr env chunks rfl
    · rw [hj]; simp [pushPrelude]
  · simp only [Capture.coreView, pushPrelude, Prod.mk.injEq] at hcore
    exact hcore.2.2.2.2.1
  · simp only [Capture.coreView, pushPrelude, Prod.mk.injEq] at hcore
    exact hcore.2.2.2.2.2.1
  · simp only [Capture.coreView, pushPrelude, Prod.mk.injEq] at hcore
    exact hcore.2.2.2.2.2.2.1

theorem pushFrames_spec (env : Environment) (frames : List (F32 × F32)) :
    ∀ c : Capture, 0 < chunk_samples c.config_ →
      ∃ c', pushFrames env frames c = some c' ∧ Pushed env c c' frames 0 0 := by
  induction frames with
  | nil => intro c _; exact ⟨c, rfl, Pushed.refl env c⟩
  | cons frame rest ih =>
    intro c h0
    obtain ⟨c1, h1, hp1, -⟩ := push_output_frame_spec env frame.1 frame.2 c h0
    obtain ⟨c2, h2, hp2⟩ := ih c1 (by rw [hp1.config]; exact h0)
    refine ⟨c2, ?_, ?_⟩
    · simp only [pushFrames, h1, Option.some_bind, h2]
    · exact hp1.trans hp2

/-- Chunks of equal length `n` are the successive blocks of `n` elements of their
concatenation. -/
theorem flatten_block (n : ℕ) (rest : List ℤ) :
    ∀ (chunks : List (List ℤ)), (∀ chunk ∈ chunks, chunk.length = n) →
      ∀ (i : ℕ) (h : i < chunks.length),
        chunks[i] = ((chunks.flatten ++ rest).drop (i * n)).take n := by
  intro chunks
  induction chunks with
  | nil => intro _ i h; simp at h
  | cons x xs ih =>
    intro hl i h
    have hx : x.length = n := hl x (List.mem_cons_self _ _)
    cases i with
    | zero =>
      simp only [List.getElem_cons_zero, Nat.zero_mul, List.drop_zero, List.flatten_cons,
        List.append_assoc]
      rw [← hx, List.take_left]
    | succ j =>
      simp only [List.getElem_cons_succ, List.flatten_cons, List.append_assoc]
      rw [ih (fun c hc => hl c (List.mem_cons_of_mem _ hc)) j (by simpa using h)]
      have : (j + 1) * n = x.length + j * n := by rw [hx]; ring
      rw [this, ← List.drop_drop, List.drop_left]

theorem flatten_rest (n : ℕ) (rest : List ℤ) :
    ∀ (chunks : List (List ℤ)), (∀ chunk ∈ chunks, chunk.length = n) →
      (chunks.flatten ++ rest).drop (chunks.length * n) = rest := by
  intro chunks
  induction chunks with
  | nil => intro _; simp
  | cons x xs ih =>
    intro hl
    have hx : x.length = n := hl x (List.mem_cons_self _ _)
    simp only [List.length_cons, List.flatten_cons, List.append_assoc]
    have : (xs.length + 1) * n = x.length + xs.length * n := by rw [hx]; ring
    rw [this, ← List.drop_drop, List.drop_left]
    exact ih (fun c hc => hl c (List.mem_cons_of_mem _ hc))

theorem emit_chunk_dense (b : Bool) (c : Capture) (chunk : List ℤ) (h : Dense c) :
    Dense (emit_chunk b c chunk) := by
  obtain ⟨h1, h2, h3⟩ := h
  cases b
  · exact ⟨h1, h2, h3⟩
  · refine ⟨?_, ?_, ?_⟩
    · simp only [emit_chunk, Bool.not_true, Bool.false_eq_true, if_false, List.map_append,
        List.map_cons, List.map_nil, List.length_append, List.length_singleton, h1, h2]
      rw [List.range'_1_concat]
      simp [Nat.add_comm]
    · simp [emit_chunk, h2]
    · simp [emit_chunk, h3]

theorem emitChunks_dense (calls : List (Bool × List ℤ)) :
    ∀ c : Capture, Dense c → Dense (emitChunks calls c) := by
  induction calls with
  | nil => intro c h; exact h
  | cons call rest ih => intro c h; exact ih _ (emit_chunk_dense _ _ _ h)

theorem emitChunks_delivered (calls : List (Bool × List ℤ)) :
    ∀ c : Capture, (emitChunks calls c).delivered.map (fun d => d.samples) =
      c.delivered.map (fun d => d.samples) ++
        (calls.filter (fun call => call.1)).map (fun call => call.2) := by
  induction calls with
  | nil => intro c; simp [emitChunks]
  | cons call rest ih =>
    intro c
    obtain ⟨b, chunk⟩ := call
    simp only [emitChunks]
    rw [ih]
    cases b <;> simp [emit_chunk]

theorem emitChunks_dropped (calls : List (Bool × List ℤ)) :
    ∀ c : Capture, (∀ call ∈ calls, call.1 = false) →
      (emitChunks calls c).dropped_chunks_ = c.dropped_chunks_ + calls.length ∧
      (emitChunks calls c).delivered = c.delivered ∧
      (emitChunks calls c).chunk_sequence_ = c.chunk_sequence_ ∧
      (emitChunks calls c).emitted_chunks_ = c.emitted_chunks_ := by
  induction calls with
  | nil => intro c _; simp [emitChunks]
  | cons call rest ih =>
    intro c h
    obtain ⟨b, chunk⟩ := call
    have hb : b = false := h (b, chunk) (List.mem_cons_self _ _)
    subst hb
    obtain ⟨h1, h2, h3, h4⟩ :=
      ih (emit_chunk false c chunk) (fun call hc => h call (List.mem_cons_of_mem _ hc))
    simp only [emitChunks]
    rw [h1, h2, h3, h4]
    simp [emit_chunk]
    omega

theorem Started.dense {config : CaptureConfig} {c : Capture} (h : Started config c) :
    Dense c := by
  refine ⟨?_, ?_, ?_⟩
  · rw [h.delivered]; rfl
  · rw [h.delivered, h.sequence]; rfl
  · rw [h.delivered, h.chunks]; rfl

/-! ### The rate converter -/

theorem resampleLoop_done (env : Environment) (input_rate bound : ℕ) (c : Capture)
    (h : c.resample_accumulator_ < input_rate) :
    resampleLoop env input_rate bound c = some c := by
  unfold resampleLoop
  rw [if_neg (by omega)]

theorem resampleLoop_step (env : Environment) (input_rate bound : ℕ) (c : Capture)
    (h : input_rate ≤ c.resample_accumulator_) :
    resampleLoop env input_rate (bound + 1) c =
      (push_output_frame env c.last_left_sample_ c.last_right_sample_ c).bind fun c =>
        resampleLoop env input_rate bound
          { c with resample_accumulator_ := c.resample_accumulator_ - input_rate } := by
  conv_lhs => unfold resampleLoop
  rw [if_pos h]

/-- The loop of the rate converter exits, having pushed the held frame once for every
time `input_rate` fits into the accumulator. -/
theorem resampleLoop_spec (env : Environment) (input_rate : ℕ) (hin : 0 < input_rate)
    (bound : ℕ) :
    ∀ c : Capture, 0 < chunk_samples c.config_ → c.resample_accumulator_ ≤ bound →
      ∃ c', resampleLoop env input_rate bound c = some c' ∧
        Pushed env c c'
          (List.replicate (c.resample_accumulator_ / input_rate)
            (c.last_left_sample_, c.last_right_sample_)) 0 0 ∧
        c'.resample_accumulator_ = c.resample_accumulator_ % input_rate ∧
        c'.last_left_sample_ = c.last_left_sample_ ∧
        c'.last_right_sample_ = c.last_right_sample_ := by
  induction bound with
  | zero =>
    intro c _ hb
    have hacc : c.resample_accumulator_ = 0 := by omega
    refine ⟨c, resampleLoop_done env _ _ c (by omega), ?_, ?_, rfl, rfl⟩
    · rw [hacc, Nat.zero_div]; exact Pushed.refl env c
    · rw [hacc, Nat.zero_mod]
  | succ n ih =>
    intro c h0 hb
    by_cases h : input_rate ≤ c.resample_accumulator_
    · obtain ⟨c1, h1, hp1, -, hacc1, hl1, hr1⟩ :=
        push_output_frame_spec env c.last_left_sample_ c.last_right_sample_ c h0
      obtain ⟨c2, h2, hp2, hacc2, hl2, hr2⟩ :=
        ih { c1 with resample_accumulator_ := c1.resample_accumulator_ - input_rate }
          (by simpa [hp1.config] using h0) (by simp only [hacc1]; omega)
      refine ⟨c2, ?_, ?_, ?_, ?_, ?_⟩
      · rw [resampleLoop_step env _ _ c h, h1, Option.some_bind, h2]
      · have hp2' : Pushed env c1 c2
            (List.replicate ((c.resample_accumulator_ - input_rate) / input_rate)
              (c.last_left_sample_, c.last_right_sample_)) 0 0 := by
          have := hp2.of_left c1 0 0 rfl rfl rfl rfl rfl rfl
          simpa only [hacc1, hl1, hr1] using this
        have hdiv : c.resample_accumulator_ / input_rate =
            (c.resample_accumulator_ - input_rate) / input_rate + 1 := by
          rw [Nat.div_eq c.resample_accumulator_ input_rate, if_pos ⟨hin, h⟩]
        rw [hdiv, List.replicate_succ]
        exact hp1.trans hp2'
      · rw [hacc2]
        simp only [hacc1]
        exact (Nat.mod_eq_sub_mod h).symm
      · rw [hl2]; exact hl1
      · rw [hr2]; exact hr1
    · have hlt : c.resample_accumulator_ < input_rate := by omega
      refine ⟨c, resampleLoop_done env _ _ c hlt, ?_, ?_, rfl, rfl⟩
      · rw [Nat.div_eq_of_lt hlt]; exact Pushed.refl env c
      · rw [Nat.mod_eq_of_lt hlt]

/-- The rate converter step returns; it pushes what `heldFrames` tells and leaves the
accumulator that `heldAccumulator` tells. -/
theorem convertFrame_spec (env : Environment) (input_rate : ℕ) (hin : 0 < input_rate)
    (left right : F32) (c : Capture) (h0 : 0 < chunk_samples c.config_) :
    ∃ c', convertFrame env input_rate left right c = some c' ∧
      Pushed env c c'
        (heldFrames input_rate c.config_.target_sample_rate c.resample_accumulator_
          [(left, right)]) 0 0 ∧
      c'.resample_accumulator_ =
        heldAccumulator input_rate c.config_.target_sample_rate c.resample_accumulator_ 1 := by
  unfold convertFrame
  by_cases h : input_rate = c.config_.target_sample_rate
  · rw [if_pos h]
    obtain ⟨c', h1, hp, -, hacc, -⟩ := push_output_frame_spec env left right c h0
    refine ⟨c', h1, ?_, ?_⟩
    · simpa [heldFrames, h] using hp
    · simpa [heldAccumulator, h] using hacc
  · rw [if_neg h]
    obtain ⟨c', h1, hp, hacc, -⟩ := resampleLoop_spec env input_rate hin
      (c.resample_accumulator_ + c.config_.target_sample_rate)
      { c with
        last_left_sample_ := left
        last_right_sample_ := right
        resample_accumulator_ := c.resample_accumulator_ + c.config_.target_sample_rate }
      h0 le_rfl
    refine ⟨c', h1, ?_, ?_⟩
    · have := hp.of_left c 0 0 rfl rfl rfl rfl rfl rfl
      simpa [heldFrames, h] using this
    · simpa [heldAccumulator, h] using hacc

theorem heldFrames_cons (input_rate output_rate acc : ℕ) (frame : F32 × F32)
    (rest : List (F32 × F32)) :
    heldFrames input_rate output_rate acc (frame :: rest) =
      heldFrames input_rate output_rate acc [frame] ++
        heldFrames input_rate output_rate
          (heldAccumulator input_rate output_rate acc 1) rest := by
  by_cases h : input_rate = output_rate
  · simp [heldFrames, heldAccumulator, h]
  · simp [heldFrames, heldAccumulator, h]

theorem heldAccumulator_succ (input_rate output_rate acc n : ℕ) :
    heldAccumulator input_rate output_rate
        (heldAccumulator input_rate output_rate acc 1) n =
      heldAccumulator input_rate output_rate acc (n + 1) := rfl

/-- The rate converter, frame after frame. -/
theorem convertFrames_spec (env : Environment) (input_rate : ℕ) (hin : 0 < input_rate)
    (frames : List (F32 × F32)) :
    ∀ c : Capture, 0 < chunk_samples c.config_ →
      ∃ c', convertFrames env input_rate frames c = some c' ∧
        Pushed env c c'
          (heldFrames input_rate c.config_.target_sample_rate c.resample_accumulator_
            frames) 0 0 ∧
        c'.resample_accumulator_ =
          heldAccumulator input_rate c.config_.target_sample_rate c.resample_accumulator_
            frames.length := by
  induction frames with
  | nil =>
    intro c _
    refine ⟨c, rfl, Pushed.refl env c, ?_⟩
    simp [heldAccumulator]
  | cons frame rest ih =>
    intro c h0
    obtain ⟨c1, h1, hp1, hacc1⟩ := convertFrame_spec env input_rate hin frame.1 frame.2 c h0
    obtain ⟨c2, h2, hp2, hacc2⟩ := ih c1 (by rw [hp1.config]; exact h0)
    refine ⟨c2, ?_, ?_, ?_⟩
    · simp only [convertFrames, h1, Option.some_bind, h2]
    · rw [heldFrames_cons]
      rw [hp1.config, hacc1] at hp2
      exact hp1.trans hp2
    · rw [hacc2, hp1.config, hacc1, heldAccumulator_succ, List.length_cons]

theorem frameLoop_eq (env : Environment) (input_format : InputFormatInfo) (is_silent : Bool)
    (data : Option (ℕ → Byte)) (remaining : ℕ) :
    ∀ (frame_index : ℕ) (c : Capture),
      frameLoop env input_format is_silent data frame_index remaining c =
        convertFrames env input_format.sample_rate
          ((List.range' frame_index remaining).map
            (decodeFrame input_format is_silent data)) c := by
  induction remaining with
  | zero => intro i c; rfl
  | succ n ih =>
    intro i c
    simp only [frameLoop, List.range'_succ, List.map_cons, convertFrames, processFrame]
    congr 1
    funext d
    exact ih (i + 1) d

theorem processBuffer_eq (env : Environment) (input_format : InputFormatInfo)
    (buffer : CaptureBuffer) (c : Capture) :
    processBuffer env input_format buffer c =
      convertFrames env input_format.sample_rate (decodedFrames input_format buffer)
        { c with
          captured_input_frames_ := c.captured_input_frames_ + buffer.num_frames
          silent_input_frames_ := c.silent_input_frames_ + silentFrames buffer } := by
  unfold processBuffer decodedFrames silentFrames
  rw [frameLoop_eq]
  by_cases h : (buffer.flags &&& AUDCLNT_BUFFERFLAGS_SILENT) ≠ 0
  · simp [h]
  · simp [h]

/-- The processing of a buffer returns; it adds the frame count of the buffer to the
captured frames (and to the silent frames when the buffer is flagged silent) and runs the
rate converter on the decoded frames. -/
theorem processBuffer_spec (env : Environment) (input_format : InputFormatInfo)
    (hin : 0 < input_format.sample_rate) (buffer : CaptureBuffer) (c : Capture)
    (h0 : 0 < chunk_samples c.config_) :
    ∃ c', processBuffer env input_format buffer c = some c' ∧
      Pushed env c c'
        (heldFrames input_format.sample_rate c.config_.target_sample_rate
          c.resample_accumulator_ (decodedFrames input_format buffer))
        buffer.num_frames (silentFrames buffer) ∧
      c'.resample_accumulator_ =
        heldAccumulator input_format.sample_rate c.config_.target_sample_rate
          c.resample_accumulator_ buffer.num_frames := by
  rw [processBuffer_eq]
  obtain ⟨c', h1, hp, hacc⟩ := convertFrames_spec env input_format.sample_rate hin
    (decodedFrames input_format buffer)
    { c with
      captured_input_frames_ := c.captured_input_frames_ + buffer.num_frames
      silent_input_frames_ := c.silent_input_frames_ + silentFrames buffer } h0
  refine ⟨c', h1, ?_, ?_⟩
  · exact hp.of_left c _ _ rfl rfl rfl rfl (by simp) (by simp)
  · simpa [decodedFrames] using hacc

theorem heldAccumulator_add (input_rate output_rate : ℕ) (m : ℕ) :
    ∀ (acc n : ℕ), heldAccumulator input_rate output_rate
        (heldAccumulator input_rate output_rate acc m) n =
      heldAccumulator input_rate output_rate acc (m + n) := by
  induction m with
  | zero => intro acc n; simp [heldAccumulator]
  | succ k ih =>
    intro acc n
    have : k + 1 + n = (k + n) + 1 := by omega
    rw [this]
    simp only [heldAccumulator]
    exact ih _ n

theorem heldFrames_append (input_rate output_rate : ℕ) (xs ys : List (F32 × F32)) :
    ∀ acc : ℕ, heldFrames input_rate output_rate acc (xs ++ ys) =
      heldFrames input_rate output_rate acc xs ++
        heldFrames input_rate output_rate
          (heldAccumulator input_rate output_rate acc xs.length) ys := by
  by_cases h : input_rate = output_rate
  · subst h
    induction xs with
    | nil => intro acc; simp [heldFrames, heldAccumulator]
    | cons x rest ih => intro acc; simp [heldFrames, heldAccumulator, ih]
  · induction xs with
    | nil => intro acc; simp [heldFrames, heldAccumulator]
    | cons x rest ih => intro acc; simp [heldFrames, heldAccumulator, h, ih]

theorem heldFrames_equal_rates (rate acc : ℕ) (frames : List (F32 × F32)) :
    heldFrames rate rate acc frames = frames := by
  induction frames with
  | nil => rfl
  | cons x rest ih => simp [heldFrames, ih]

theorem div_add_mod_add_div (a b n : ℕ) : a / n + (a % n + b) / n = (a + b) / n := by
  rcases Nat.eq_zero_or_pos n with h | h
  · subst h; simp
  · have h1 : a + b = a % n + b + n * (a / n) := by
      have := Nat.mod_add_div a n
      omega
    rw [h1, Nat.add_mul_div_left _ _ h]
    omega

/-- At unequal rates, from an accumulator below `input_rate`, the converter has pushed
`⌊(acc + n × output_rate) / input_rate⌋` frames after `n` input frames and holds the
remainder of that division. -/
theorem heldFrames_length (input_rate output_rate : ℕ) (hin : 0 < input_rate)
    (hne : input_rate ≠ output_rate) (frames : List (F32 × F32)) :
    ∀ acc : ℕ, acc < input_rate →
      (heldFrames input_rate output_rate acc frames).length =
        (acc + frames.length * output_rate) / input_rate ∧
      heldAccumulator input_rate output_rate acc frames.length =
        (acc + frames.length * output_rate) % input_rate := by
  induction frames with
  | nil =>
    intro acc hacc
    simp [heldFrames, heldAccumulator, Nat.div_eq_of_lt hacc, Nat.mod_eq_of_lt hacc]
  | cons x rest ih =>
    intro acc hacc
    obtain ⟨h1, h2⟩ := ih ((acc + output_rate) % input_rate) (Nat.mod_lt _ hin)
    have e : acc + (rest.length + 1) * output_rate =
        (acc + output_rate) + rest.length * output_rate := by ring
    constructor
    · simp only [heldFrames, hne, if_false, List.length_append, List.length_replicate,
        List.length_cons]
      rw [h1, e, div_add_mod_add_div]
    · simp only [heldAccumulator, hne, if_false, List.length_cons]
      rw [h2, e, Nat.mod_add_mod]

theorem decodedFrames_length (input_format : InputFormatInfo) (buffer : CaptureBuffer) :
    (decodedFrames input_format buffer).length = buffer.num_frames := by
  simp [decodedFrames]

theorem decodedFrames_total (input_format : InputFormatInfo) (buffers : List CaptureBuffer) :
    (buffers.flatMap (decodedFrames input_format)).length =
      (buffers.map (fun b => b.num_frames)).sum := by
  induction buffers with
  | nil => rfl
  | cons b rest ih =>
    rw [List.flatMap_cons, List.length_append, ih, decodedFrames_length]
    simp

/-- The processing of the buffers of a session returns; it counts the captured and the
silent frames and runs the rate converter on the decoded frames of all buffers in
order. -/
theorem processBuffers_spec (env : Environment) (input_format : InputFormatInfo)
    (hin : 0 < input_format.sample_rate) (buffers : List CaptureBuffer) :
    ∀ c : Capture, 0 < chunk_samples c.config_ →
      ∃ c', processBuffers env input_format buffers c = some c' ∧
        Pushed env c c'
          (heldFrames input_format.sample_rate c.config_.target_sample_rate
            c.resample_accumulator_ (buffers.flatMap (decodedFrames input_format)))
          (buffers.map (fun b => b.num_frames)).sum (buffers.map silentFrames).sum ∧
        c'.resample_accumulator_ =
          heldAccumulator input_format.sample_rate c.config_.target_sample_rate
            c.resample_accumulator_ (buffers.map (fun b => b.num_frames)).sum := by
  induction buffers with
  | nil =>
    intro c _
    exact ⟨c, rfl, by simpa [heldFrames] using Pushed.refl env c, by simp [heldAccumulator]⟩
  | cons buffer rest ih =>
    intro c h0
    obtain ⟨c1, h1, hp1, hacc1⟩ := processBuffer_spec env input_format hin buffer c h0
    obtain ⟨c2, h2, hp2, hacc2⟩ := ih c1 (by rw [hp1.config]; exact h0)
    refine ⟨c2, ?_, ?_, ?_⟩
    · simp only [processBuffers, h1, Option.some_bind, h2]
    · rw [hp1.config, hacc1] at hp2
      simp only [List.flatMap_cons, List.map_cons, List.sum_cons]
      rw [heldFrames_append, decodedFrames_length]
      exact hp1.trans hp2
    · rw [hacc2, hp1.config, hacc1, heldAccumulator_add]
      simp

theorem abs_floor_div_le_one (m n : ℕ) (hn : 0 < n) :
    |((m / n : ℕ) : ℚ) - (m : ℚ) / (n : ℚ)| ≤ 1 := by
  have hn' : (0 : ℚ) < n := by exact_mod_cast hn
  have h1 : ((m / n : ℕ) : ℚ) * n ≤ m := by exact_mod_cast Nat.div_mul_le_self m n
  have h2 : (m : ℚ) < (((m / n : ℕ) : ℚ) + 1) * n := by
    have := Nat.lt_mul_div_succ m hn
    have h3 : m < (m / n + 1) * n := by rw [Nat.mul_comm]; exact this
    exact_mod_cast h3
  rw [abs_le]
  constructor
  · rw [le_sub_iff_add_le, ← sub_eq_neg_add, sub_le_iff_le_add, div_le_iff₀ hn']
    linarith
  · have h3 : ((m / n : ℕ) : ℚ) ≤ (m : ℚ) / (n : ℚ) := by
      rw [le_div_iff₀ hn']; exact h1
    linarith

/-! ### Rounding -/

theorem roundHalfEven_le (q : ℚ) (n : ℤ) (h : q ≤ n) : roundHalfEven q ≤ n := by
  have hfl : (⌊q⌋ : ℚ) ≤ q := Int.floor_le q
  have h1 : ⌊q⌋ ≤ n := by
    have : (⌊q⌋ : ℚ) ≤ n := hfl.trans h
    exact_mod_cast this
  unfold roundHalfEven
  simp only
  split_ifs with h2 h3 h4
  · exact h1
  · have : (⌊q⌋ : ℚ) < n := by linarith
    have : ⌊q⌋ < n := by exact_mod_cast this
    omega
  · exact h1
  · have : (⌊q⌋ : ℚ) < n := by linarith
    have : ⌊q⌋ < n := by exact_mod_cast this
    omega

theorem le_roundHalfEven (q : ℚ) (n : ℤ) (h : (n : ℚ) ≤ q) : n ≤ roundHalfEven q := by
  have h1 : n ≤ ⌊q⌋ := Int.le_floor.mpr h
  unfold roundHalfEven
  simp only
  split_ifs <;> omega

theorem roundHalfEven_intCast (n : ℤ) : roundHalfEven (n : ℚ) = n :=
  le_antisymm (roundHalfEven_le _ n le_rfl) (le_roundHalfEven _ n le_rfl)

theorem f32Exponent_le (q : ℚ) (hq : q ≠ 0) (k : ℤ) (hk : -126 ≤ k)
    (h : |q| ≤ (2 : ℚ) ^ k) : f32Exponent q ≤ k := by
  unfold f32Exponent
  apply max_le _ hk
  by_contra hlt
  push_neg at hlt
  have hpos : (0 : ℚ) < |q| := abs_pos.mpr hq
  have h1 : ((2 : ℕ) : ℚ) ^ (k + 1) ≤ |q| :=
    (Int.zpow_le_iff_le_log (by norm_num) hpos).mpr (by omega)
  have h2 : (2 : ℚ) ^ k < (2 : ℚ) ^ (k + 1) := zpow_lt_zpow_right₀ (by norm_num) (by omega)
  have h3 : ((2 : ℕ) : ℚ) = 2 := by norm_num
  rw [h3] at h1
  linarith

/-- Rounding to binary32 does not leave an interval bounded by a power of two. -/
theorem roundF32_abs_le (q : ℚ) (k : ℤ) (hk : -126 ≤ k) (h : |q| ≤ (2 : ℚ) ^ k) :
    |roundF32 q| ≤ (2 : ℚ) ^ k := by
  by_cases hq : q = 0
  · subst hq
    have : roundF32 0 = 0 := by
      unfold roundF32
      simp only [zero_div]
      have := roundHalfEven_intCast 0
      simp only [Int.cast_zero] at this
      rw [this]; simp
    rw [this, abs_zero]
    positivity
  · have he := f32Exponent_le q hq k hk h
    unfold roundF32
    simp only
    set e := f32Exponent q with he_def
    have hulp : (0 : ℚ) < (2 : ℚ) ^ (e - 23) := by positivity
    obtain ⟨j, hj⟩ : ∃ j : ℕ, (j : ℤ) = k - e + 23 := ⟨(k - e + 23).toNat, by omega⟩
    have hN : (((2 : ℤ) ^ j : ℤ) : ℚ) * (2 : ℚ) ^ (e - 23) = (2 : ℚ) ^ k := by
      have h1 : (((2 : ℤ) ^ j : ℤ) : ℚ) = (2 : ℚ) ^ (j : ℤ) := by
        rw [zpow_natCast]; norm_cast
      rw [h1, ← zpow_add₀ (by norm_num : (2 : ℚ) ≠ 0), hj]
      congr 1
      ring
    have habs := abs_le.mp h
    have hup : q / (2 : ℚ) ^ (e - 23) ≤ (((2 : ℤ) ^ j : ℤ) : ℚ) := by
      rw [div_le_iff₀ hulp, hN]; exact habs.2
    have hlo : ((-(2 : ℤ) ^ j : ℤ) : ℚ) ≤ q / (2 : ℚ) ^ (e - 23) := by
      rw [le_div_iff₀ hulp, Int.cast_neg, neg_mul, hN]; exact habs.1
    have r1 := roundHalfEven_le _ _ hup
    have r2 := le_roundHalfEven _ _ hlo
    have r1' : (roundHalfEven (q / (2 : ℚ) ^ (e - 23)) : ℚ) ≤ (((2 : ℤ) ^ j : ℤ) : ℚ) := by
      exact_mod_cast r1
    have r2' : ((-(2 : ℤ) ^ j : ℤ) : ℚ) ≤ (roundHalfEven (q / (2 : ℚ) ^ (e - 23)) : ℚ) := by
      exact_mod_cast r2
    rw [abs_le]
    constructor
    · rw [← hN, ← neg_mul]
      rw [Int.cast_neg] at r2'
      exact mul_le_mul_of_nonneg_right r2' hulp.le
    · rw [← hN]
      exact mul_le_mul_of_nonneg_right r1' hulp.le

/-- An exact result of magnitude at most `2^k`, `k` a binary32 exponent, rounds to a
finite `float` of magnitude at most `2^k`. -/
theorem F32.round_bounded (q : ℚ) (k : ℤ) (hk : -126 ≤ k) (hk' : k ≤ 127)
    (h : |q| ≤ (2 : ℚ) ^ k) :
    ∃ r : ℚ, F32.round q = F32.finite r ∧ |r| ≤ (2 : ℚ) ^ k := by
  have hr := roundF32_abs_le q k hk h
  refine ⟨roundF32 q, ?_, hr⟩
  unfold F32.round
  simp only
  rw [if_neg]
  push_neg
  have h1 : (2 : ℚ) ^ k < (2 : ℚ) ^ (128 : ℤ) := zpow_lt_zpow_right₀ (by norm_num) (by omega)
  have h2 : (2 : ℚ) ^ (128 : ℤ) = (2 : ℚ) ^ (128 : ℕ) := by norm_cast
  rw [h2] at h1
  linarith

/-! ### The decoder -/

theorem readLE_lt (mem : ℕ → Byte) (width : ℕ) :
    ∀ offset : ℕ, readLE mem offset width < 256 ^ width := by
  induction width with
  | zero => intro offset; simp [readLE]
  | succ n ih =>
    intro offset
    have h1 := ih (offset + 1)
    have h2 : (mem offset).val < 256 := (mem offset).isLt
    simp only [readLE, pow_succ]
    omega

theorem toSigned_16_bounds (u : ℕ) (h : u < 256 ^ 2) :
    -32768 ≤ toSigned 16 u ∧ toSigned 16 u ≤ 32767 := by
  unfold toSigned
  norm_num at h ⊢
  split_ifs <;> omega

theorem toSigned_32_bounds (u : ℕ) (h : u < 256 ^ 4) :
    -2147483648 ≤ toSigned 32 u ∧ toSigned 32 u ≤ 2147483647 := by
  unfold toSigned
  norm_num at h ⊢
  split_ifs <;> omega

/-- An integer of magnitude at most `2^k` converted to `float` and divided by `2^k` lies
in `[-1, 1]`. -/
theorem ofInt_divConst_inUnitRange (v : ℤ) (k : ℕ) (hk : k ≤ 127)
    (h1 : -(2 : ℤ) ^ k ≤ v) (h2 : v ≤ (2 : ℤ) ^ k) :
    ((F32.ofInt v).divConst ((2 : ℚ) ^ k)).InUnitRange := by
  have habs : |(v : ℚ)| ≤ (2 : ℚ) ^ (k : ℤ) := by
    rw [abs_le, zpow_natCast]
    constructor
    · have : ((-(2 : ℤ) ^ k : ℤ) : ℚ) ≤ (v : ℚ) := by exact_mod_cast h1
      simpa using this
    · have : (v : ℚ) ≤ (((2 : ℤ) ^ k : ℤ) : ℚ) := by exact_mod_cast h2
      simpa using this
  obtain ⟨r, hr, hrabs⟩ := F32.round_bounded (v : ℚ) k (by omega) (by omega) habs
  have hpos : (0 : ℚ) < (2 : ℚ) ^ k := by positivity
  have hq : |r / (2 : ℚ) ^ k| ≤ (2 : ℚ) ^ (0 : ℤ) := by
    rw [zpow_natCast] at hrabs
    rw [abs_div, abs_of_pos hpos, zpow_zero, div_le_one hpos]
    exact hrabs
  obtain ⟨r', hr', hrabs'⟩ := F32.round_bounded (r / (2 : ℚ) ^ k) 0 (by omega) (by omega) hq
  unfold F32.ofInt
  rw [hr]
  simp only [F32.divConst]
  rw [hr']
  simp only [F32.InUnitRange]
  rw [zpow_zero] at hrabs'
  exact abs_le.mp hrabs'

theorem zero_inUnitRange : F32.zero.InUnitRange := by
  simp [F32.zero, F32.InUnitRange]

/-- The decoder stays in `[-1, 1]` on every format but 32-bit float. -/
theorem DecodeSample_inUnitRange (frame_start : Option (ℕ → Byte)) (source_channel : ℕ)
    (format : InputFormatInfo) (h : format.sample_format ≠ SampleFormat.kFloat32) :
    (DecodeSample frame_start source_channel format).InUnitRange := by
  unfold DecodeSample
  cases frame_start with
  | none => exact zero_inUnitRange
  | some mem =>
    simp only
    by_cases hch : format.channels = 0
    · rw [if_pos hch]; exact zero_inUnitRange
    · rw [if_neg hch]
      cases hf : format.sample_format with
      | kUnknown => exact zero_inUnitRange
      | kFloat32 => exact absurd hf h
      | kInt16 =>
        simp only
        have hb := toSigned_16_bounds _
          (readLE_lt mem 2 (2 * clampedChannel source_channel format))
        have := ofInt_divConst_inUnitRange
          (toSigned 16 (readLE mem (2 * clampedChannel source_channel format) 2)) 15
          (by norm_num) (by norm_num; omega) (by norm_num; omega)
        norm_num at this
        exact this
      | kInt32 =>
        simp only
        have hb := toSigned_32_bounds _
          (readLE_lt mem 4 (4 * clampedChannel source_channel format))
        by_cases h24 : format.valid_bits_per_sample = 24 ∧ 24 ≤ format.bits_per_sample
        · rw [if_pos h24]
          have hs : toSigned 32 (readLE mem (4 * clampedChannel source_channel format) 4)
              >>> (8 : ℕ) =
              toSigned 32 (readLE mem (4 * clampedChannel source_channel format) 4) / 256 := by
            rw [Int.shiftRight_eq_div_pow]; norm_num
          rw [hs]
          have := ofInt_divConst_inUnitRange
            (toSigned 32 (readLE mem (4 * clampedChannel source_channel format) 4) / 256) 23
            (by norm_num) (by norm_num; omega) (by norm_num; omega)
          norm_num at this
          exact this
        · rw [if_neg h24]
          have := ofInt_divConst_inUnitRange
            (toSigned 32 (readLE mem (4 * clampedChannel source_channel format) 4)) 31
            (by norm_num) (by norm_num; omega) (by norm_num; omega)
          norm_num at this
          exact this

/-- On a 32-bit float format the decoder returns the stored `float` as it is. -/
theorem DecodeSample_float32 (mem : ℕ → Byte) (source_channel : ℕ)
    (format : InputFormatInfo) (h : format.sample_format = SampleFormat.kFloat32)
    (hch : format.channels ≠ 0) :
    DecodeSample (some mem) source_channel format =
      F32.ofBits (readLE mem (4 * clampedChannel source_channel format) 4) := by
  unfold DecodeSample
  simp only [hch, if_false, h]

theorem ofBits_two : F32.ofBits 0x40000000 = F32.finite 2 := by
  unfold F32.ofBits
  norm_num

theorem readLE_congr (mem mem' : ℕ → Byte) (width : ℕ) :
    ∀ offset : ℕ, (∀ i, offset ≤ i → i < offset + width → mem i = mem' i) →
      readLE mem offset width = readLE mem' offset width := by
  induction width with
  | zero => intro offset _; rfl
  | succ n ih =>
    intro offset h
    simp only [readLE]
    rw [h offset le_rfl (by omega), ih (offset + 1) (fun i h1 h2 => h i (by omega) (by omega))]

/-- The decoder reads no byte outside `DecodeSample.readRange`: memories that agree on
that range decode alike. -/
theorem DecodeSample_congr (mem mem' : ℕ → Byte) (source_channel : ℕ)
    (format : InputFormatInfo)
    (h : ∀ range, DecodeSample.readRange source_channel format = some range →
      ∀ i, range.1 ≤ i → i < range.2 → mem i = mem' i) :
    DecodeSample (some mem) source_channel format =
      DecodeSample (some mem') source_channel format := by
  unfold DecodeSample
  simp only
  by_cases hch : format.channels = 0
  · rw [if_pos hch, if_pos hch]
  · rw [if_neg hch, if_neg hch]
    cases hf : format.sample_format with
    | kUnknown => rfl
    | kFloat32 =>
      simp only
      rw [readLE_congr mem mem' 4 _ (h (4 * clampedChannel source_channel format,
        4 * clampedChannel source_channel format + 4)
        (by simp [DecodeSample.readRange, hch, hf, sampleWidth]))]
    | kInt16 =>
      simp only
      rw [readLE_congr mem mem' 2 _ (h (2 * clampedChannel source_channel format,
        2 * clampedChannel source_channel format + 2)
        (by simp [DecodeSample.readRange, hch, hf, sampleWidth]))]
    | kInt32 =>
      simp only
      rw [readLE_congr mem mem' 4 _ (h (4 * clampedChannel source_channel format,
        4 * clampedChannel source_channel format + 4)
        (by simp [DecodeSample.readRange, hch, hf, sampleWidth]))]

/-- Where the elements the decoder indexes are as wide as the containers of the format
and the block alignment does not wrap, the bytes the decoder reads lie in the frame. -/
theorem DecodeSample_readRange_in_frame (source_channel : ℕ) (format : InputFormatInfo)
    (range : ℕ × ℕ) (h : DecodeSample.readRange source_channel format = some range)
    (hwidth : sampleWidth format.sample_format = format.bits_per_sample / 8)
    (hwrap : format.channels * (format.bits_per_sample / 8) < 2 ^ 16) :
    range.2 ≤ block_align format := by
  unfold DecodeSample.readRange at h
  split_ifs at h with h1
  simp only [Option.some.injEq] at h
  subst h
  push_neg at h1
  simp only
  unfold block_align
  rw [Nat.mod_eq_of_lt hwrap, ← hwidth]
  have hc : clampedChannel source_channel format + 1 ≤ format.channels := by
    unfold clampedChannel
    have h2 : (format.channels - 1) % 2 ^ 16 ≤ format.channels - 1 := Nat.mod_le _ _
    have h3 := min_le_right source_channel ((format.channels - 1) % 2 ^ 16)
    have h4 := h1.1
    omega
  calc sampleWidth format.sample_format * clampedChannel source_channel format +
        sampleWidth format.sample_format
      = sampleWidth format.sample_format * (clampedChannel source_channel format + 1) := by
        ring
    _ ≤ sampleWidth format.sample_format * format.channels := Nat.mul_le_mul_left _ hc
    _ = format.channels * sampleWidth format.sample_format := Nat.mul_comm _ _

theorem roundF32_two_zpow (k : ℤ) (hk : -126 ≤ k) : roundF32 ((2 : ℚ) ^ k) = (2 : ℚ) ^ k := by
  have hpos : (0 : ℚ) < (2 : ℚ) ^ k := by positivity
  have hlog : Int.log 2 |(2 : ℚ) ^ k| = k := by
    rw [abs_of_pos hpos]
    have := Int.log_zpow (R := ℚ) (b := 2) (by norm_num) k
    simpa using this
  unfold roundF32 f32Exponent
  simp only
  rw [hlog, max_eq_left hk]
  have h1 : (2 : ℚ) ^ k / (2 : ℚ) ^ (k - 23) = (((2 : ℤ) ^ 23 : ℤ) : ℚ) := by
    rw [← zpow_sub₀ (by norm_num : (2 : ℚ) ≠ 0)]
    have : k - (k - 23) = ((23 : ℕ) : ℤ) := by omega
    rw [this, zpow_natCast]
    norm_cast
  rw [h1, roundHalfEven_intCast]
  have h2 : (((2 : ℤ) ^ 23 : ℤ) : ℚ) = (2 : ℚ) ^ ((23 : ℕ) : ℤ) := by
    rw [zpow_natCast]; norm_cast
  rw [h2, ← zpow_add₀ (by norm_num : (2 : ℚ) ≠ 0)]
  congr 1
  omega

theorem F32.round_two_zpow (k : ℤ) (hk : -126 ≤ k) (hk' : k ≤ 127) :
    F32.round ((2 : ℚ) ^ k) = F32.finite ((2 : ℚ) ^ k) := by
  unfold F32.round
  simp only
  rw [roundF32_two_zpow k hk, if_neg]
  push_neg
  have hpos : (0 : ℚ) < (2 : ℚ) ^ k := by positivity
  rw [abs_of_pos hpos]
  have h1 : (2 : ℚ) ^ k < (2 : ℚ) ^ (128 : ℤ) := zpow_lt_zpow_right₀ (by norm_num) (by omega)
  have h2 : (2 : ℚ) ^ (128 : ℤ) = (2 : ℚ) ^ (128 : ℕ) := by norm_cast
  rw [h2] at h1
  exact h1

theorem F32.round_zero : F32.round 0 = F32.finite 0 := by
  have h := roundF32_abs_le 0 0 (by norm_num) (by norm_num)
  have h0 : roundF32 0 = 0 := by
    have := abs_nonneg (roundF32 0)
    have h1 : roundF32 0 = 0 := by
      unfold roundF32
      simp only [zero_div]
      have := roundHalfEven_intCast 0
      simp only [Int.cast_zero] at this
      rw [this]; simp
    exact h1
  unfold F32.round
  simp only
  rw [h0, if_neg]
  norm_num

/-- The decoder on a 32-bit PCM format with 24 valid bits. -/
theorem DecodeSample_int24 (mem : ℕ → Byte) (source_channel : ℕ) (format : InputFormatInfo)
    (hf : format.sample_format = SampleFormat.kInt32) (hch : format.channels ≠ 0)
    (hv : format.valid_bits_per_sample = 24) (hb : 24 ≤ format.bits_per_sample) :
    DecodeSample (some mem) source_channel format =
      (F32.ofInt (toSigned 32 (readLE mem (4 * clampedChannel source_channel format) 4)
        >>> (8 : ℕ))).divConst 8388608 := by
  unfold DecodeSample
  simp only [hch, if_false, hf]
  rw [if_pos ⟨hv, hb⟩]

/-! ### The output sample stream -/

/-- The samples handed out in chunks followed by the pending ones grow by the samples of
the pushed frames. -/
theorem Pushed.stream {env : Environment} {c c' : Capture} {frames : List (F32 × F32)}
    {a b : ℕ} (h : Pushed env c c' frames a b) :
    c'.emit_log.flatten ++ c'.pending_samples =
      c.emit_log.flatten ++ c.pending_samples ++
        frames.flatMap (frameSamples env c.config_) := by
  obtain ⟨chunks, hview, -, hstream⟩ := h.chunks
  rw [sinkView_emit_log hview, emitRun_emit_log, List.flatten_append, List.append_assoc,
    hstream, List.append_assoc]

theorem heldFrames_single (input_rate output_rate acc : ℕ) (frame : F32 × F32) :
    heldFrames input_rate output_rate acc [frame] =
      List.replicate (heldFrames input_rate output_rate acc [frame]).length frame := by
  by_cases h : input_rate = output_rate
  · simp [heldFrames, h]
  · simp [heldFrames, h]

theorem flatMap_replicate_single (n : ℕ) (frame : F32 × F32) (f : F32 × F32 → ℤ) :
    (List.replicate n frame).flatMap (fun x => [f x]) = List.replicate n (f frame) := by
  induction n with
  | zero => rfl
  | succ k ih => simp [List.replicate_succ, ih]

theorem flatMap_replicate_pair (n : ℕ) (frame : F32 × F32) (f g : F32 × F32 → ℤ) :
    (List.replicate n frame).flatMap (fun x => [f x, g x]) =
      (List.replicate n [f frame, g frame]).flatten := by
  induction n with
  | zero => rfl
  | succ k ih => simp [List.replicate_succ, ih]

theorem frameSamples_mono (env : Environment) (config_ : CaptureConfig)
    (h : config_.target_channels = 1) :
    frameSamples env config_ = fun x => [FloatToInt16 env.lrintf_unspecified x.1] := by
  funext x
  simp [frameSamples, h]

theorem frameSamples_stereo (env : Environment) (config_ : CaptureConfig)
    (h : config_.target_channels = 2) :
    frameSamples env config_ = fun x =>
      [FloatToInt16 env.lrintf_unspecified x.1, FloatToInt16 env.lrintf_unspecified x.2] := by
  funext x
  simp [frameSamples, h]

theorem FloatToInt16_zero (unspecified : ℤ) : FloatToInt16 unspecified F32.zero = 0 := by
  have h1 : F32.clamp F32.zero (-1) 1 = F32.zero := by
    norm_num [F32.clamp, F32.zero, F32.ltConst, F32.gtConst]
  have h2 : F32.zero.mulConst 32767 = F32.finite 0 := by
    simp [F32.zero, F32.mulConst, F32.round_zero]
  have h3 : roundHalfEven 0 = 0 := by
    have := roundHalfEven_intCast 0
    simpa using this
  unfold FloatToInt16
  simp only [h1, h2]
  norm_num [F32.zero, F32.geConst, F32.leConst, lrintf, h3, toInt16]

theorem decodeFrame_silent (input_format : InputFormatInfo) (data : Option (ℕ → Byte))
    (frame_index : ℕ) :
    decodeFrame input_format true data frame_index = (F32.zero, F32.zero) := by
  cases data <;> rfl

theorem heldFrames_mem (input_rate output_rate : ℕ) (x : F32 × F32)
    (frames : List (F32 × F32)) :
    ∀ acc : ℕ, x ∈ heldFrames input_rate output_rate acc frames → x ∈ frames := by
  induction frames with
  | nil => intro acc h; simp [heldFrames] at h
  | cons frame rest ih =>
    intro acc h
    by_cases hr : input_rate = output_rate
    · simp only [heldFrames, hr, if_true, List.mem_cons] at h
      rcases h with h | h
      · exact h ▸ List.mem_cons_self _ _
      · exact List.mem_cons_of_mem _ (ih acc (by rw [hr]; exact h))
    · simp only [heldFrames, hr, if_false, List.mem_append] at h
      rcases h with h | h
      · rw [(List.mem_replicate.mp h).2]; exact List.mem_cons_self _ _
      · exact List.mem_cons_of_mem _ (ih _ h)

theorem frameSamples_zero (env : Environment) (config_ : CaptureConfig) (s : ℤ)
    (h : s ∈ frameSamples env config_ (F32.zero, F32.zero)) : s = 0 := by
  unfold frameSamples at h
  split_ifs at h <;> simp [FloatToInt16_zero] at h <;> exact h

theorem emitRun_dense (env : Environment) (chunks : List (List ℤ)) :
    ∀ c : Capture, Dense c → Dense (emitRun env chunks c) := by
  induction chunks with
  | nil => intro c h; exact h
  | cons chunk rest ih => intro c h; exact ih _ (emit_chunk_dense _ _ _ h)

theorem Dense.of_sinkView {c d : Capture} (h : c.sinkView = d.sinkView) (hd : Dense d) :
    Dense c := by
  simp only [Capture.sinkView, Prod.mk.injEq] at h
  obtain ⟨h1, h2, -, h4, -⟩ := h
  exact ⟨by rw [h4]; exact hd.sequence, by rw [h1, h4]; exact hd.counter,
    by rw [h2, h4]; exact hd.chunks⟩

theorem Dense.getElem {c : Capture} (hd : Dense c) (k : ℕ) (h : k < c.delivered.length) :
    c.delivered[k].sequence = k + 1 := by
  have h2 := congrArg (fun l => l[k]?) hd.sequence
  simp only [List.getElem?_map, List.getElem?_eq_getElem h, Option.map_some'] at h2
  rw [List.getElem?_range' _ _ h] at h2
  simp only [Option.some.injEq] at h2
  omega

/-! ### The lifecycle -/

theorem formatAccepted_rate {input_format : InputFormatInfo}
    (h : formatAccepted input_format = true) : 0 < input_format.sample_rate := by
  unfold formatAccepted at h
  simp only [Bool.not_eq_true', Bool.or_eq_false_iff, beq_eq_false_iff_ne, ne_eq] at h
  exact Nat.pos_of_ne_zero h.2

theorem Failure.message_ne_empty (failure : Failure) : failure.message ≠ "" := by
  intro h
  have hlen := congrArg String.length h
  cases failure with
  | hresult stage hr =>
    simp only [Failure.message, HResultToString, String.length_append] at hlen
    have : " failed (HRESULT=0x".length = 19 := by decide
    rw [this] at hlen
    simp at hlen
  | createEvent => simp [Failure.message] at h
  | unsupportedFormat => simp [Failure.message] at h

theorem NoReset.same (c : Capture) : NoReset c c :=
  ⟨rfl, le_rfl, le_rfl, le_rfl, le_rfl, le_rfl, le_rfl, Or.inl rfl⟩

theorem NoReset.chain {c1 c2 c3 : Capture} (h1 : NoReset c1 c2) (h2 : NoReset c2 c3) :
    NoReset c1 c3 where
  config := h2.config.trans h1.config
  captured := h1.captured.trans h2.captured
  emitted := h1.emitted.trans h2.emitted
  chunks := h1.chunks.trans h2.chunks
  dropped := h1.dropped.trans h2.dropped
  silent := h1.silent.trans h2.silent
  sequence := h1.sequence.trans h2.sequence
  last_error := by
    rcases h2.last_error with h | h
    · rw [h]; exact h1.last_error
    · exact Or.inr h

theorem emit_chunk_monotone (b : Bool) (c : Capture) (chunk : List ℤ) :
    c.emitted_chunks_ ≤ (emit_chunk b c chunk).emitted_chunks_ ∧
    c.dropped_chunks_ ≤ (emit_chunk b c chunk).dropped_chunks_ ∧
    c.chunk_sequence_ ≤ (emit_chunk b c chunk).chunk_sequence_ := by
  cases b <;> simp [emit_chunk]

theorem emitRun_monotone (env : Environment) (chunks : List (List ℤ)) :
    ∀ c : Capture, c.emitted_chunks_ ≤ (emitRun env chunks c).emitted_chunks_ ∧
      c.dropped_chunks_ ≤ (emitRun env chunks c).dropped_chunks_ ∧
      c.chunk_sequence_ ≤ (emitRun env chunks c).chunk_sequence_ := by
  induction chunks with
  | nil => intro c; exact ⟨le_rfl, le_rfl, le_rfl⟩
  | cons chunk rest ih =>
    intro c
    obtain ⟨h1, h2, h3⟩ := emit_chunk_monotone (env.sink_registered c.emit_log.length) c chunk
    obtain ⟨k1, k2, k3⟩ := ih (emit_chunk (env.sink_registered c.emit_log.length) c chunk)
    exact ⟨h1.trans k1, h2.trans k2, h3.trans k3⟩

theorem drainStep_lifeView (env : Environment) (c : Capture) :
    (drainStep env c).lifeView = c.lifeView := by
  unfold drainStep emit_chunk
  cases env.sink_registered c.emit_log.length <;> rfl

theorem drainPending_lifeView (env : Environment) (bound : ℕ) (c c' : Capture)
    (h : drainPending env bound c = some c') : c'.lifeView = c.lifeView :=
  (drainPending_inv env (fun d => d.lifeView = c.lifeView)
    (fun d hd _ => (drainStep_lifeView env d).trans hd) bound c c' rfl h).1

theorem push_output_frame_lifeView (env : Environment) (left right : F32) (c c' : Capture)
    (h : push_output_frame env left right c = some c') : c'.lifeView = c.lifeView := by
  rw [push_output_frame_eq] at h
  exact (drainPending_lifeView env _ _ c' h).trans rfl

theorem resampleLoop_lifeView (env : Environment) (input_rate bound : ℕ) :
    ∀ c c' : Capture, resampleLoop env input_rate bound c = some c' →
      c'.lifeView = c.lifeView := by
  induction bound with
  | zero =>
    intro c c' h
    unfold resampleLoop at h
    split at h
    · simp at h
    · simp only [Option.some.injEq] at h; rw [h]
  | succ n ih =>
    intro c c' h
    by_cases hc : input_rate ≤ c.resample_accumulator_
    · rw [resampleLoop_step env _ _ c hc] at h
      obtain ⟨c1, h1, h2⟩ := Option.bind_eq_some.mp h
      rw [ih _ c' h2]
      exact push_output_frame_lifeView env _ _ c c1 h1
    · rw [resampleLoop_done env _ _ c (by omega)] at h
      simp only [Option.some.injEq] at h; rw [h]

theorem convertFrame_lifeView (env : Environment) (input_rate : ℕ) (left right : F32)
    (c c' : Capture) (h : convertFrame env input_rate left right c = some c') :
    c'.lifeView = c.lifeView := by
  unfold convertFrame at h
  split at h
  · exact push_output_frame_lifeView env left right c c' h
  · exact (resampleLoop_lifeView env _ _ _ c' h).trans rfl

theorem convertFrames_lifeView (env : Environment) (input_rate : ℕ)
    (frames : List (F32 × F32)) :
    ∀ c c' : Capture, convertFrames env input_rate frames c = some c' →
      c'.lifeView = c.lifeView := by
  induction frames with
  | nil => intro c c' h; simp only [convertFrames, Option.some.injEq] at h; rw [h]
  | cons frame rest ih =>
    intro c c' h
    simp only [convertFrames] at h
    obtain ⟨c1, h1, h2⟩ := Option.bind_eq_some.mp h
    rw [ih c1 c' h2]
    exact convertFrame_lifeView env _ _ _ c c1 h1

theorem processBuffer_lifeView (env : Environment) (input_format : InputFormatInfo)
    (buffer : CaptureBuffer) (c c' : Capture)
    (h : processBuffer env input_format buffer c = some c') : c'.lifeView = c.lifeView := by
  rw [processBuffer_eq] at h
  exact (convertFrames_lifeView env _ _ _ c' h).trans rfl

/-- The processing of a buffer resets nothing and leaves the last-error text, the
running flag and the thread handle alone. -/
theorem processBuffer_noReset (env : Environment) (input_format : InputFormatInfo)
    (hin : 0 < input_format.sample_rate) (buffer : CaptureBuffer) (c c' : Capture)
    (h0 : 0 < chunk_samples c.config_)
    (h : processBuffer env input_format buffer c = some c') :
    NoReset c c' ∧ c'.lifeView = c.lifeView := by
  have hlife := processBuffer_lifeView env input_format buffer c c' h
  obtain ⟨d, hd, hp, -⟩ := processBuffer_spec env input_format hin buffer c h0
  rw [h] at hd
  simp only [Option.some.injEq] at hd
  subst hd
  obtain ⟨chunks, hview, -, -⟩ := hp.chunks
  obtain ⟨m1, m2, m3⟩ := emitRun_monotone env chunks c
  simp only [Capture.sinkView, Prod.mk.injEq] at hview
  obtain ⟨v1, v2, v3, -⟩ := hview
  refine ⟨⟨hp.config, ?_, ?_, ?_, ?_, ?_, ?_, ?_⟩, hlife⟩
  · rw [hp.captured]; omega
  · rw [hp.emitted]; omega
  · rw [v2]; exact m1
  · rw [v3]; exact m2
  · rw [hp.silent]; omega
  · rw [v1]; exact m3
  · simp only [Capture.lifeView, Prod.mk.injEq] at hlife
    exact Or.inl hlife.2.2.1

/-- An event of the capture thread keeps the lifecycle sound, resets nothing, leaves the
thread handle alone and never sets the running flag. -/
theorem threadStep_facts (env : Environment) (event : ThreadEvent) (e e' : Engine)
    (hs : Sound e) (h : threadStep env event e = some e') :
    Sound e' ∧ NoReset e.capture e'.capture ∧
      e'.capture.thread_joinable = e.capture.thread_joinable ∧
      (e.capture.running_ = false → e'.capture.running_ = false) := by
  obtain ⟨capture, phase⟩ := e
  cases event with
  | failed failure =>
    have key : ∀ (hp : phase ≠ ThreadPhase.absent),
        e' = { capture := { SetError failure.message capture with running_ := false }
               phase := ThreadPhase.absent } := by
      intro hp
      cases phase with
      | absent => exact absurd rfl hp
      | negotiating => simpa [threadStep, eq_comm] using h
      | capturing f => simpa [threadStep, eq_comm] using h
    have hp : phase ≠ ThreadPhase.absent := by
      intro hp; subst hp; simp [threadStep] at h
    rw [key hp]
    refine ⟨⟨hs.channels_ne, hs.channels_lt, ?_, ?_⟩, ?_, rfl, fun _ => rfl⟩
    · intro f hf; simp at hf
    · intro hne; exact absurd rfl hne
    · exact ⟨rfl, le_rfl, le_rfl, le_rfl, le_rfl, le_rfl, le_rfl, Or.inr ⟨failure, rfl⟩⟩
  | negotiated input_format =>
    cases phase with
    | absent => simp [threadStep] at h
    | capturing f => simp [threadStep] at h
    | negotiating =>
      simp only [threadStep] at h
      split at h
      · rename_i hacc
        simp only [Option.some.injEq] at h
        subst h
        refine ⟨⟨hs.channels_ne, hs.channels_lt, ?_, ?_⟩, ?_, rfl, fun hr => hr⟩
        · intro f hf
          simp only [ThreadPhase.capturing.injEq] at hf
          subst hf; exact hacc
        · intro _; exact hs.joinable (by simp)
        · exact ⟨rfl, le_rfl, le_rfl, le_rfl, le_rfl, le_rfl, le_rfl, Or.inl rfl⟩
      · simp at h
  | buffer buffer =>
    cases phase with
    | absent => simp [threadStep] at h
    | negotiating => simp [threadStep] at h
    | capturing f =>
      simp only [threadStep, Option.map_eq_some'] at h
      obtain ⟨c', hc', rfl⟩ := h
      have hacc := hs.format f rfl
      obtain ⟨hn, hlife⟩ := processBuffer_noReset env f (formatAccepted_rate hacc) buffer
        capture c' (chunk_samples_pos hs.channels_lt hs.channels_ne) hc'
      simp only [Capture.lifeView, Prod.mk.injEq] at hlife
      refine ⟨⟨?_, ?_, ?_, ?_⟩, hn, hlife.2.1, fun hr => by rw [hlife.1]; exact hr⟩
      · simp only; rw [hn.config]; exact hs.channels_ne
      · simp only; rw [hn.config]; exact hs.channels_lt
      · intro g hg
        simp only [ThreadPhase.capturing.injEq] at hg
        subst hg; exact hacc
      · intro _
        simp only; rw [hlife.2.1]
        exact hs.joinable (by simp)
  | exit =>
    cases phase with
    | absent => simp [threadStep] at h
    | negotiating => simp [threadStep] at h
    | capturing f =>
      simp only [threadStep] at h
      split at h
      · simp at h
      · simp only [Option.some.injEq] at h
        subst h
        refine ⟨⟨hs.channels_ne, hs.channels_lt, ?_, ?_⟩, ?_, rfl, fun _ => rfl⟩
        · intro g hg; simp at hg
        · intro hne; exact absurd rfl hne
        · exact ⟨rfl, le_rfl, le_rfl, le_rfl, le_rfl, le_rfl, le_rfl, Or.inl rfl⟩

theorem runThread_facts (env : Environment) (tail : List ThreadEvent) :
    ∀ (e e' : Engine), Sound e → runThread env tail e = some e' →
      Sound e' ∧ NoReset e.capture e'.capture ∧
        e'.capture.thread_joinable = e.capture.thread_joinable ∧
        (e.capture.running_ = false → e'.capture.running_ = false) := by
  induction tail with
  | nil =>
    intro e e' hs h
    simp only [runThread, Option.some.injEq] at h
    subst h
    exact ⟨hs, NoReset.same _, rfl, id⟩
  | cons event rest ih =>
    intro e e' hs h
    simp only [runThread] at h
    obtain ⟨e1, h1, h2⟩ := Option.bind_eq_some.mp h
    obtain ⟨s1, n1, j1, r1⟩ := threadStep_facts env event e e1 hs h1
    obtain ⟨s2, n2, j2, r2⟩ := ih e1 e' s1 h2
    exact ⟨s2, n1.chain n2, j2.trans j1, fun hr => r2 (r1 hr)⟩

/-- An event of the capture thread leaves the thread handle alone and never sets the
running flag, in any state. -/
theorem threadStep_flags (env : Environment) (event : ThreadEvent) (e e' : Engine)
    (h : threadStep env event e = some e') :
    e'.capture.thread_joinable = e.capture.thread_joinable ∧
      (e.capture.running_ = false → e'.capture.running_ = false) := by
  obtain ⟨capture, phase⟩ := e
  cases event with
  | failed failure =>
    cases phase with
    | absent => simp [threadStep] at h
    | negotiating =>
      simp only [threadStep, Option.some.injEq] at h
      subst h; exact ⟨rfl, fun _ => rfl⟩
    | capturing f =>
      simp only [threadStep, Option.some.injEq] at h
      subst h; exact ⟨rfl, fun _ => rfl⟩
  | negotiated input_format =>
    cases phase with
    | absent => simp [threadStep] at h
    | capturing f => simp [threadStep] at h
    | negotiating =>
      simp only [threadStep] at h
      split at h
      · simp only [Option.some.injEq] at h
        subst h; exact ⟨rfl, fun hr => hr⟩
      · simp at h
  | buffer buffer =>
    cases phase with
    | absent => simp [threadStep] at h
    | negotiating => simp [threadStep] at h
    | capturing f =>
      simp only [threadStep, Option.map_eq_some'] at h
      obtain ⟨c', hc', rfl⟩ := h
      have hlife := processBuffer_lifeView env f buffer capture c' hc'
      simp only [Capture.lifeView, Prod.mk.injEq] at hlife
      exact ⟨hlife.2.1, fun hr => by simp only; rw [hlife.1]; exact hr⟩
  | exit =>
    cases phase with
    | absent => simp [threadStep] at h
    | negotiating => simp [threadStep] at h
    | capturing f =>
      simp only [threadStep] at h
      split at h
      · simp at h
      · simp only [Option.some.injEq] at h
        subst h; exact ⟨rfl, fun _ => rfl⟩

theorem runThread_flags (env : Environment) (tail : List ThreadEvent) :
    ∀ (e e' : Engine), runThread env tail e = some e' →
      e'.capture.thread_joinable = e.capture.thread_joinable ∧
        (e.capture.running_ = false → e'.capture.running_ = false) := by
  induction tail with
  | nil =>
    intro e e' h
    simp only [runThread, Option.some.injEq] at h
    subst h
    exact ⟨rfl, id⟩
  | cons event rest ih =>
    intro e e' h
    simp only [runThread] at h
    obtain ⟨e1, h1, h2⟩ := Option.bind_eq_some.mp h
    obtain ⟨j1, r1⟩ := threadStep_flags env event e e1 h1
    obtain ⟨j2, r2⟩ := ih e1 e' h2
    exact ⟨j2.trans j1, fun hr => r2 (r1 hr)⟩

/-- What `Stop` returns is either the state it was called in, when that had the running
flag false and no joinable thread, or the state the thread has left from the state with
the running flag cleared, with the thread handle no longer joinable. -/
theorem Stop_cases (env : Environment) (tail : List ThreadEvent) (e e' : Engine)
    (h : Stop env tail e = some e') :
    (e.capture.running_ = false ∧ e.capture.thread_joinable = false ∧ e' = e) ∨
    (e.capture.thread_joinable = false ∧
      e' = { e with capture := { e.capture with running_ := false } }) ∨
    (e.capture.thread_joinable = true ∧
      ∃ e1, runThread env tail { e with capture := { e.capture with running_ := false } }
          = some e1 ∧ e1.phase = ThreadPhase.absent ∧
        e' = { e1 with capture := { e1.capture with thread_joinable := false } }) := by
  unfold Stop at h
  split at h
  · rename_i hc
    simp only [Bool.and_eq_true, Bool.not_eq_true'] at hc
    simp only [Option.some.injEq] at h
    exact Or.inl ⟨hc.1, hc.2, h.symm⟩
  · right
    simp only at h
    split at h
    · rename_i hj
      right
      refine ⟨hj, ?_⟩
      split at h
      · rename_i e1 hrun
        split at h
        · rename_i hp
          simp only [Option.some.injEq] at h
          exact ⟨e1, hrun, hp, h.symm⟩
        · simp at h
      · simp at h
    · rename_i hj
      left
      simp only [Option.some.injEq] at h
      exact ⟨by simpa using hj, h.symm⟩

/-- After `Stop` has returned the running flag is false and no thread is joinable. -/
theorem Stop_result (env : Environment) (tail : List ThreadEvent) (e e' : Engine)
    (h : Stop env tail e = some e') :
    e'.capture.running_ = false ∧ e'.capture.thread_joinable = false := by
  rcases Stop_cases env tail e e' h with ⟨h1, h2, rfl⟩ | ⟨h1, rfl⟩ | ⟨-, e1, hrun, -, rfl⟩
  · exact ⟨h1, h2⟩
  · exact ⟨rfl, h1⟩
  · exact ⟨(runThread_flags env tail _ e1 hrun).2 rfl, rfl⟩

/-- `Stop` on a state with the running flag false and no joinable thread returns at
once and changes nothing. -/
theorem Stop_idle (env : Environment) (tail : List ThreadEvent) (e : Engine)
    (h1 : e.capture.running_ = false) (h2 : e.capture.thread_joinable = false) :
    Stop env tail e = some e := by
  simp [Stop, h1, h2]

/-- From every state there is a run of the thread with which `Stop` returns. -/
theorem Stop_returns (env : Environment) (e : Engine) :
    ∃ tail e', Stop env tail e = some e' := by
  have key : ∃ tail, (Stop env tail e).isSome = true := by
    obtain ⟨capture, phase⟩ := e
    cases hr : capture.running_ <;> cases hj : capture.thread_joinable
    · exact ⟨[], by simp [Stop, hr, hj]⟩
    · cases phase with
      | absent => exact ⟨[], by simp [Stop, hr, hj, runThread]⟩
      | negotiating =>
        exact ⟨[ThreadEvent.failed Failure.createEvent],
          by simp [Stop, hr, hj, runThread, threadStep, SetError]⟩
      | capturing f =>
        exact ⟨[ThreadEvent.exit], by simp [Stop, hr, hj, runThread, threadStep]⟩
    · exact ⟨[], by simp [Stop, hr, hj]⟩
    · cases phase with
      | absent => exact ⟨[], by simp [Stop, hr, hj, runThread]⟩
      | negotiating =>
        exact ⟨[ThreadEvent.failed Failure.createEvent],
          by simp [Stop, hr, hj, runThread, threadStep, SetError]⟩
      | capturing f =>
        exact ⟨[ThreadEvent.exit], by simp [Stop, hr, hj, runThread, threadStep]⟩
  obtain ⟨tail, h⟩ := key
  exact ⟨tail, Option.isSome_iff_exists.mp h⟩

/-- The three ways in which `Start` returns: rejected as already running, with nothing
changed; failed to create the thread; thread spawned. -/
theorem Start_cases (config : CaptureConfig) (spawn_error : Option String)
    (c c' : Capture) (started : Bool) (error : Option String)
    (h : Start config spawn_error c = some (c', started, error)) :
    (c.running_ = true ∧ c' = c ∧ started = false ∧
      error = some "System audio capture is already running.") ∨
    (c.running_ = false ∧ started = false ∧
      (∃ what, spawn_error = some what ∧ error = some what ∧ c'.last_error_ = what) ∧
      c'.config_ = effectiveConfig config ∧ c'.thread_joinable = c.thread_joinable ∧
      c'.running_ = false) ∨
    (c.running_ = false ∧ started = true ∧ spawn_error = none ∧ error = none ∧
      c.thread_joinable = false ∧ c'.config_ = effectiveConfig config ∧
      c'.thread_joinable = true ∧ c'.running_ = true) := by
  have hcfg : ∀ k : CaptureConfig,
      (if (if (if k.target_sample_rate = 0 then { k with target_sample_rate := 48000 }
            else k).target_channels = 0
          then { (if k.target_sample_rate = 0 then { k with target_sample_rate := 48000 }
            else k) with target_channels := 2 }
          else (if k.target_sample_rate = 0 then { k with target_sample_rate := 48000 }
            else k)).frame_ms = 0
        then { (if (if k.target_sample_rate = 0 then { k with target_sample_rate := 48000 }
            else k).target_channels = 0
          then { (if k.target_sample_rate = 0 then { k with target_sample_rate := 48000 }
            else k) with target_channels := 2 }
          else (if k.target_sample_rate = 0 then { k with target_sample_rate := 48000 }
            else k)) with frame_ms := 20 }
        else (if (if k.target_sample_rate = 0 then { k with target_sample_rate := 48000 }
            else k).target_channels = 0
          then { (if k.target_sample_rate = 0 then { k with target_sample_rate := 48000 }
            else k) with target_channels := 2 }
          else (if k.target_sample_rate = 0 then { k with target_sample_rate := 48000 }
            else k))) = effectiveConfig k := by
    intro k
    obtain ⟨r, ch, ms⟩ := k
    unfold effectiveConfig
    by_cases h1 : r = 0 <;> by_cases h2 : ch = 0 <;> by_cases h3 : ms = 0 <;> simp [h1, h2, h3]
  unfold Start at h
  split at h
  · rename_i hr
    simp only [Option.some.injEq, Prod.mk.injEq] at h
    exact Or.inl ⟨hr, h.1.symm, h.2.1.symm, h.2.2.symm⟩
  · rename_i hr
    right
    have hr' : c.running_ = false := by simpa using hr
    cases spawn_error with
    | some what =>
      left
      simp only [Option.some.injEq, Prod.mk.injEq] at h
      obtain ⟨rfl, rfl, rfl⟩ := h
      exact ⟨hr', rfl, ⟨what, rfl, rfl, rfl⟩, hcfg config, rfl, rfl⟩
    | none =>
      right
      simp only at h
      split at h
      · simp at h
      · rename_i hj
        simp only [Option.some.injEq, Prod.mk.injEq] at h
        obtain ⟨rfl, rfl, rfl⟩ := h
        exact ⟨hr', rfl, rfl, rfl, by simpa using hj, hcfg config, rfl, rfl⟩

theorem effectiveConfig_channels (config : CaptureConfig) (h : config.WellTyped) :
    (effectiveConfig config).target_channels ≠ 0 ∧
      (effectiveConfig config).target_channels < 2 ^ 32 := by
  obtain ⟨-, h2, -⟩ := h
  unfold effectiveConfig
  simp only
  split_ifs <;> omega

theorem startEngine_sound (config : CaptureConfig) (spawn_error : Option String)
    (e e' : Engine) (started : Bool) (error : Option String) (hs : Sound e)
    (hconfig : config.WellTyped)
    (h : startEngine config spawn_error e = some (e', started, error)) : Sound e' := by
  unfold startEngine at h
  simp only [Option.map_eq_some'] at h
  obtain ⟨⟨c', ok, err⟩, hstart, heq⟩ := h
  simp only [Prod.mk.injEq] at heq
  obtain ⟨rfl, rfl, rfl⟩ := heq
  rcases Start_cases config spawn_error e.capture c' ok err hstart with
    ⟨-, rfl, rfl, -⟩ | ⟨-, rfl, -, hc, hj, -⟩ | ⟨-, rfl, -, -, -, hc, hj, -⟩
  · exact ⟨hs.channels_ne, hs.channels_lt, fun f hf => hs.format f (by simpa using hf),
      fun hp => hs.joinable (by simpa using hp)⟩
  · refine ⟨?_, ?_, fun f hf => hs.format f (by simpa using hf), fun hp => ?_⟩
    · simp only; rw [hc]; exact (effectiveConfig_channels config hconfig).1
    · simp only; rw [hc]; exact (effectiveConfig_channels config hconfig).2
    · simp only; rw [hj]; exact hs.joinable (by simpa using hp)
  · refine ⟨?_, ?_, fun f hf => by simp at hf, fun _ => hj⟩
    · simp only; rw [hc]; exact (effectiveConfig_channels config hconfig).1
    · simp only; rw [hc]; exact (effectiveConfig_channels config hconfig).2

/-- `Stop` keeps the lifecycle sound and resets nothing. -/
theorem Stop_facts (env : Environment) (tail : List ThreadEvent) (e e' : Engine)
    (hs : Sound e) (h : Stop env tail e = some e') :
    Sound e' ∧ NoReset e.capture e'.capture := by
  rcases Stop_cases env tail e e' h with ⟨-, -, rfl⟩ | ⟨hj, rfl⟩ | ⟨-, e1, hrun, hp, rfl⟩
  · exact ⟨hs, NoReset.same _⟩
  · refine ⟨⟨hs.channels_ne, hs.channels_lt, hs.format, fun hp => ?_⟩, ?_⟩
    · have := hs.joinable hp
      rw [hj] at this
      exact absurd this (by simp)
    · exact ⟨rfl, le_rfl, le_rfl, le_rfl, le_rfl, le_rfl, le_rfl, Or.inl rfl⟩
  · have hs0 : Sound { e with capture := { e.capture with running_ := false } } :=
      ⟨hs.channels_ne, hs.channels_lt, hs.format, hs.joinable⟩
    obtain ⟨s1, n1, -, -⟩ := runThread_facts env tail _ e1 hs0 hrun
    refine ⟨⟨s1.channels_ne, s1.channels_lt, fun f hf => ?_, fun hne => absurd hp hne⟩, ?_⟩
    · rw [hp] at hf; simp at hf
    · exact ⟨n1.config, n1.captured, n1.emitted, n1.chunks, n1.dropped, n1.silent,
        n1.sequence, n1.last_error⟩

/-- Every state of the lifecycle is sound. -/
theorem Reachable.sound {env : Environment} {e : Engine} (h : Reachable env e) : Sound e := by
  induction h with
  | init =>
    exact ⟨by decide, by decide, fun f hf => by simp at hf, fun hp => absurd rfl hp⟩
  | start config spawn_error e e' started error _ hconfig hstart ih =>
    exact startEngine_sound config spawn_error e e' started error ih hconfig hstart
  | stop tail e e' _ hstop ih => exact (Stop_facts env tail e e' ih hstop).1
  | thread event e e' _ hstep ih => exact (threadStep_facts env event e e' ih hstep).1

/-- When the capture thread does nothing more, `Stop` changes the snapshot in the running
flag only. -/
theorem Stop_stats (env : Environment) (e e' : Engine) (h : Stop env [] e = some e') :
    GetStats e'.capture = { GetStats e.capture with running := false } := by
  rcases Stop_cases env [] e e' h with ⟨hr, -, rfl⟩ | ⟨-, rfl⟩ | ⟨-, e1, hrun, -, rfl⟩
  · simp [GetStats, hr]
  · rfl
  · simp only [runThread, Option.some.injEq] at hrun
    subst hrun
    rfl

theorem exampleEngineStarted_reachable (env : Environment) :
    Reachable env exampleEngineStarted :=
  Reachable.start {} none {} exampleEngineStarted true none Reachable.init
    (by simp [CaptureConfig.WellTyped]) rfl

theorem exampleEngineFailed_reachable (env : Environment) :
    Reachable env exampleEngineFailed :=
  Reachable.thread (ThreadEvent.failed (Failure.hresult "GetDefaultAudioEndpoint" 0x80070490))
    exampleEngineStarted exampleEngineFailed (exampleEngineStarted_reachable env) (by
      simp only [threadStep, exampleEngineStarted, exampleEngineFailed, SetError,
        Option.some.injEq, Engine.mk.injEq, and_true]
      have : (Failure.hresult "GetDefaultAudioEndpoint" 0x80070490).message =
          "GetDefaultAudioEndpoint failed (HRESULT=0x80070490)" := by decide
      rw [this])

/-! ### The number of output frames -/

theorem heldFrames_single_length (input_rate output_rate acc : ℕ) (frame : F32 × F32) :
    (heldFrames input_rate output_rate acc [frame]).length =
      if input_rate = output_rate then 1 else (acc + output_rate) / input_rate := by
  by_cases h : input_rate = output_rate
  · simp [heldFrames, h]
  · simp [heldFrames, h]

/-- At unequal rates, from any accumulator value, the converter has pushed
`⌊(acc + n × output_rate) / input_rate⌋` frames after `n ≥ 1` input frames and holds the
remainder of that division. -/
theorem heldFrames_length_cons (input_rate output_rate : ℕ) (hin : 0 < input_rate)
    (hne : input_rate ≠ output_rate) (acc : ℕ) (frame : F32 × F32)
    (rest : List (F32 × F32)) :
    (heldFrames input_rate output_rate acc (frame :: rest)).length =
        (acc + (rest.length + 1) * output_rate) / input_rate ∧
      heldAccumulator input_rate output_rate acc (rest.length + 1) =
        (acc + (rest.length + 1) * output_rate) % input_rate := by
  obtain ⟨h1, h2⟩ := heldFrames_length input_rate output_rate hin hne rest
    ((acc + output_rate) % input_rate) (Nat.mod_lt _ hin)
  have e : acc + (rest.length + 1) * output_rate =
      (acc + output_rate) + rest.length * output_rate := by ring
  constructor
  · simp only [heldFrames, hne, if_false, List.length_append, List.length_replicate]
    rw [h1, e, div_add_mod_add_div]
  · simp only [heldAccumulator, hne, if_false]
    rw [h2, e, Nat.mod_add_mod]

/-- The number of output frames and the accumulator after `n` input frames, in the
quantities of the source. -/
theorem heldFrames_count (input_rate output_rate : ℕ) (hin : 0 < input_rate) (acc : ℕ)
    (frames : List (F32 × F32)) :
    (heldFrames input_rate output_rate acc frames).length =
        (if input_rate = output_rate then frames.length
          else if frames.length = 0 then 0
          else (acc + frames.length * output_rate) / input_rate) ∧
      heldAccumulator input_rate output_rate acc frames.length =
        (if input_rate = output_rate then acc
          else if frames.length = 0 then acc
          else (acc + frames.length * output_rate) % input_rate) := by
  by_cases h : input_rate = output_rate
  · subst h
    rw [heldFrames_equal_rates]
    simp only [if_true, true_and]
    generalize frames.length = n
    induction n generalizing acc with
    | zero => rfl
    | succ k ih => simp only [heldAccumulator, if_true]; exact ih acc
  · cases frames with
    | nil => simp [heldFrames, heldAccumulator, h]
    | cons frame rest =>
      obtain ⟨h1, h2⟩ := heldFrames_length_cons input_rate output_rate hin h acc frame rest
      simp only [h, if_false, List.length_cons, Nat.add_one_ne_zero]
      exact ⟨h1, h2⟩

theorem heldFrames_replicate (input_rate output_rate acc n : ℕ) (frame : F32 × F32) :
    heldFrames input_rate output_rate acc (List.replicate n frame) =
      List.replicate (heldFrames input_rate output_rate acc (List.replicate n frame)).length
        frame := by
  rw [List.eq_replicate_iff]
  refine ⟨rfl, fun x hx => ?_⟩
  exact (List.mem_replicate.mp (heldFrames_mem _ _ x _ _ hx)).2

theorem flatten_replicate_replicate (k m : ℕ) (a : ℤ) :
    (List.replicate k (List.replicate m a)).flatten = List.replicate (k * m) a := by
  induction k with
  | zero => simp
  | succ j ih =>
    rw [List.replicate_succ, List.flatten_cons, ih, ← List.replicate_add]
    congr 1
    ring

theorem frameSamples_zero_eq (env : Environment) (config_ : CaptureConfig) :
    frameSamples env config_ (F32.zero, F32.zero) =
      List.replicate (if 1 < config_.target_channels then 2 else 1) 0 := by
  unfold frameSamples
  split_ifs <;> simp [FloatToInt16_zero, List.replicate]

theorem flatMap_replicate (k : ℕ) (frame : F32 × F32) (f : F32 × F32 → List ℤ) :
    (List.replicate k frame).flatMap f = (List.replicate k (f frame)).flatten := by
  induction k with
  | zero => rfl
  | succ j ih => simp [List.replicate_succ, ih]

/-- The chunks of the calls of `emit_chunk` are appended to the log, each of
`chunk_samples` samples. -/
theorem Pushed.log {env : Environment} {c c' : Capture} {frames : List (F32 × F32)}
    {a b : ℕ} (h : Pushed env c c' frames a b) :
    ∃ chunks : List (List ℤ), c'.emit_log = c.emit_log ++ chunks ∧
      ∀ chunk ∈ chunks, chunk.length = chunk_samples c.config_ := by
  obtain ⟨chunks, hview, hlen, -⟩ := h.chunks
  exact ⟨chunks, by rw [sinkView_emit_log hview, emitRun_emit_log], hlen⟩

/-! ## The claims -/

/-- C1. Chunk assembler slicing.  In a session begun by `Start` with any configuration,
after any sequence of frames pushed through `push_output_frame` (which always returns):
the chunk size is `chunk_frames × output_channels` and is positive, every chunk handed to
`emit_chunk` has exactly that many samples, the `i`-th one is the `i`-th consecutive
block of that size of the stream of pushed int16 samples, the pending buffer is the
remaining tail of the stream and is shorter than one chunk, and the chunks followed by
the pending buffer are the whole stream (nothing lost, nothing duplicated). -/
theorem C1_chunk_assembler_slicing (env : Environment) (config : CaptureConfig)
    (c0 c : Capture) (frames : List (F32 × F32))
    (hconfig : config.WellTyped)
    (hstart : Start config none c0 = some (c, true, none)) :
    ∃ c', pushFrames env frames c = some c' ∧
      chunk_samples c.config_ = chunk_frames c.config_ * c.config_.target_channels ∧
      0 < chunk_samples c.config_ ∧
      (∀ chunk ∈ c'.emit_log, chunk.length = chunk_samples c.config_) ∧
      (∀ (i : ℕ) (h : i < c'.emit_log.length),
        c'.emit_log[i] =
          ((frames.flatMap (frameSamples env c.config_)).drop
            (i * chunk_samples c.config_)).take (chunk_samples c.config_)) ∧
      c'.pending_samples =
        (frames.flatMap (frameSamples env c.config_)).drop
          (c'.emit_log.length * chunk_samples c.config_) ∧
      c'.pending_samples.length < chunk_samples c.config_ ∧
      c'.emit_log.flatten ++ c'.pending_samples =
        frames.flatMap (frameSamples env c.config_) := by
  have hs := Start_started hstart
  have h0 := hs.chunk_positive hconfig
  obtain ⟨c', hrun, hp⟩ := pushFrames_spec env frames c h0
  obtain ⟨chunks, hview, hlen, hstream⟩ := hp.chunks
  have hlog : c'.emit_log = chunks := by
    rw [sinkView_emit_log hview, emitRun_emit_log, hs.emit_log, List.nil_append]
  rw [hs.pending, List.nil_append] at hstream
  refine ⟨c', hrun, chunk_samples_eq (hs.channels_lt hconfig), h0, ?_, ?_, ?_, ?_, ?_⟩
  · rw [hlog]; exact hlen
  · intro i h
    rw [← hstream]
    simp only [hlog]
    exact flatten_block _ _ chunks hlen i (by rw [← hlog]; exact h)
  · rw [← hstream, hlog]
    exact (flatten_rest _ _ chunks hlen).symm
  · exact hp.short (by rw [hs.pending]; exact h0)
  · rw [hlog]; exact hstream

/-- Witness of C1: the default configuration on a fresh engine, two frames pushed. -/
theorem C1_chunk_assembler_slicing_witness :
    CaptureConfig.WellTyped {} ∧
    Start {} none {} = some (exampleStarted, true, none) ∧
    ∃ c', pushFrames exampleEnv [(F32.zero, F32.zero), (F32.zero, F32.zero)] exampleStarted
        = some c' ∧
      chunk_samples exampleStarted.config_ =
        chunk_frames exampleStarted.config_ * exampleStarted.config_.target_channels ∧
      0 < chunk_samples exampleStarted.config_ ∧
      (∀ chunk ∈ c'.emit_log, chunk.length = chunk_samples exampleStarted.config_) ∧
      (∀ (i : ℕ) (h : i < c'.emit_log.length),
        c'.emit_log[i] =
          (([(F32.zero, F32.zero), (F32.zero, F32.zero)].flatMap
            (frameSamples exampleEnv exampleStarted.config_)).drop
            (i * chunk_samples exampleStarted.config_)).take
              (chunk_samples exampleStarted.config_)) ∧
      c'.pending_samples =
        ([(F32.zero, F32.zero), (F32.zero, F32.zero)].flatMap
          (frameSamples exampleEnv exampleStarted.config_)).drop
          (c'.emit_log.length * chunk_samples exampleStarted.config_) ∧
      c'.pending_samples.length < chunk_samples exampleStarted.config_ ∧
      c'.emit_log.flatten ++ c'.pending_samples =
        [(F32.zero, F32.zero), (F32.zero, F32.zero)].flatMap
          (frameSamples exampleEnv exampleStarted.config_) :=
  ⟨by simp [CaptureConfig.WellTyped], rfl,
    C1_chunk_assembler_slicing exampleEnv {} {} exampleStarted _
      (by simp [CaptureConfig.WellTyped]) rfl⟩

/-- C2. Sequence numbers are dense from 1.  In a session begun by `Start`, after any
sequence of calls of `emit_chunk`, each finding the sink registered or absent as an
arbitrary flag tells, the deliveries are exactly the chunks of the calls that found a
sink, in order, and the `k`-th delivery (counted from 1) carries sequence number `k`,
however many calls in between were dropped.  The same numbering holds after the capture
loop has processed any sequence of buffers, whatever the environment does to the sink
in between. -/
theorem C2_sequence_numbers_dense (config : CaptureConfig) (spawn_error : Option String)
    (c0 c : Capture) (calls : List (Bool × List ℤ))
    (hstart : Start config spawn_error c0 = some (c, true, none)) :
    (emitChunks calls c).delivered.length = (calls.filter (fun call => call.1)).length ∧
    (emitChunks calls c).delivered.map (fun d => d.samples) =
      (calls.filter (fun call => call.1)).map (fun call => call.2) ∧
    (∀ (k : ℕ) (h : k < (emitChunks calls c).delivered.length),
      (emitChunks calls c).delivered[k].sequence = k + 1) ∧
    (∀ (env : Environment) (input_format : InputFormatInfo) (buffers : List CaptureBuffer),
      config.WellTyped → 0 < input_format.sample_rate →
      ∃ c', processBuffers env input_format buffers c = some c' ∧
        c'.chunk_sequence_ = c'.delivered.length ∧
        ∀ (k : ℕ) (h : k < c'.delivered.length), c'.delivered[k].sequence = k + 1) := by
  have hs := Start_started hstart
  have hd := emitChunks_dense calls c hs.dense
  have hm := emitChunks_delivered calls c
  rw [hs.delivered, List.map_nil, List.nil_append] at hm
  refine ⟨?_, hm, hd.getElem, ?_⟩
  · have := congrArg List.length hm
    simpa using this
  · intro env input_format buffers hconfig hrate
    obtain ⟨c', hrun, hp, -⟩ := processBuffers_spec env input_format hrate buffers c
      (hs.chunk_positive hconfig)
    obtain ⟨chunks, hview, -⟩ := hp.chunks
    have hd' : Dense c' := Dense.of_sinkView hview (emitRun_dense env chunks c hs.dense)
    exact ⟨c', hrun, hd'.counter, hd'.getElem⟩

/-- Witness of C2: three chunk boundaries, the second without a sink. -/
theorem C2_sequence_numbers_dense_witness :
    Start {} none {} = some (exampleStarted, true, none) ∧
    (emitChunks [(true, [1]), (false, [2]), (true, [3])] exampleStarted).delivered.map
        (fun d => (d.sequence, d.samples)) = [(1, [1]), (2, [3])] ∧
    ∀ (k : ℕ)
      (h : k < (emitChunks [(true, [1]), (false, [2]), (true, [3])]
        exampleStarted).delivered.length),
      (emitChunks [(true, [1]), (false, [2]), (true, [3])]
        exampleStarted).delivered[k].sequence = k + 1 :=
  ⟨rfl, rfl,
    (C2_sequence_numbers_dense {} none {} exampleStarted
      [(true, [1]), (false, [2]), (true, [3])] rfl).2.2.1⟩

/-- C3. Undeliverable chunk accounting.  A call of `emit_chunk` that finds no sink adds
exactly 1 to `dropped_chunks`, invokes no sink and leaves `chunk_sequence` and
`emitted_chunks` as they were; a call that finds a sink adds exactly 1 to
`emitted_chunks` and to `chunk_sequence`, invokes the sink once with the chunk and the
new sequence number, and leaves `dropped_chunks` as it was.  Hence any number of chunk
boundaries after the sink is removed adds that number to `dropped_chunks` and delivers
nothing. -/
theorem C3_undeliverable_chunk_accounting (c : Capture) (chunk : List ℤ) :
    ((emit_chunk false c chunk).dropped_chunks_ = c.dropped_chunks_ + 1 ∧
      (emit_chunk false c chunk).delivered = c.delivered ∧
      (emit_chunk false c chunk).chunk_sequence_ = c.chunk_sequence_ ∧
      (emit_chunk false c chunk).emitted_chunks_ = c.emitted_chunks_) ∧
    ((emit_chunk true c chunk).emitted_chunks_ = c.emitted_chunks_ + 1 ∧
      (emit_chunk true c chunk).chunk_sequence_ = c.chunk_sequence_ + 1 ∧
      (emit_chunk true c chunk).dropped_chunks_ = c.dropped_chunks_ ∧
      (emit_chunk true c chunk).delivered = c.delivered ++
        [{ samples := chunk, sample_rate := c.config_.target_sample_rate,
           channels := c.config_.target_channels, sequence := c.chunk_sequence_ + 1 }]) ∧
    (∀ calls : List (Bool × List ℤ), (∀ call ∈ calls, call.1 = false) →
      (emitChunks calls c).dropped_chunks_ = c.dropped_chunks_ + calls.length ∧
      (emitChunks calls c).delivered = c.delivered ∧
      (emitChunks calls c).chunk_sequence_ = c.chunk_sequence_ ∧
      (emitChunks calls c).emitted_chunks_ = c.emitted_chunks_) :=
  ⟨⟨rfl, rfl, rfl, rfl⟩, ⟨rfl, rfl, rfl, rfl⟩, fun calls h => emitChunks_dropped calls c h⟩

/-- C4. Sample-and-hold resampler frame count.  In a session begun by `Start`, for every
positive input rate different from the output rate, the rate converter returns on every
sequence of `N` decoded input frames and has then emitted exactly
`⌊N × output_rate / input_rate⌋` output frames, the accumulator holding the remainder of
that division; so the count differs from `N × output_rate / input_rate` by at most 1
after every frame, and for input 48000 and output 16000 it is `⌊N / 3⌋`, within 1 of
`N / 3`.  The same holds with `N = captured_input_frames` after any sequence of
buffers. -/
theorem C4_resampler_frame_count (env : Environment) (config : CaptureConfig)
    (c0 c : Capture) (input_rate : ℕ) (frames : List (F32 × F32))
    (hconfig : config.WellTyped)
    (hstart : Start config none c0 = some (c, true, none))
    (hin : 0 < input_rate) (hne : input_rate ≠ c.config_.target_sample_rate) :
    0 < c.config_.target_sample_rate ∧
    (∃ c', convertFrames env input_rate frames c = some c' ∧
      c'.emitted_output_frames_ =
        frames.length * c.config_.target_sample_rate / input_rate ∧
      c'.resample_accumulator_ =
        frames.length * c.config_.target_sample_rate % input_rate ∧
      |(c'.emitted_output_frames_ : ℚ) -
        (frames.length : ℚ) * (c.config_.target_sample_rate : ℚ) / (input_rate : ℚ)| ≤ 1 ∧
      (input_rate = 48000 → c.config_.target_sample_rate = 16000 →
        c'.emitted_output_frames_ = frames.length / 3 ∧
        |(c'.emitted_output_frames_ : ℚ) - (frames.length : ℚ) / 3| ≤ 1)) ∧
    (∀ (input_format : InputFormatInfo) (buffers : List CaptureBuffer),
      input_format.sample_rate = input_rate →
      ∃ c', processBuffers env input_format buffers c = some c' ∧
        c'.emitted_output_frames_ =
          c'.captured_input_frames_ * c.config_.target_sample_rate / input_rate) := by
  have hs := Start_started hstart
  have h0 := hs.chunk_positive hconfig
  have hacc0 : c.resample_accumulator_ < input_rate := by rw [hs.accumulator]; exact hin
  refine ⟨Nat.pos_of_ne_zero hs.rate_ne_zero, ?_, ?_⟩
  · obtain ⟨c', hrun, hp, hacc⟩ := convertFrames_spec env input_rate hin frames c h0
    obtain ⟨hl, ha⟩ := heldFrames_length input_rate c.config_.target_sample_rate hin hne
      frames c.resample_accumulator_ hacc0
    have hcount : c'.emitted_output_frames_ =
        frames.length * c.config_.target_sample_rate / input_rate := by
      rw [hp.emitted, hl, hs.emitted, hs.accumulator]; simp
    refine ⟨c', hrun, hcount, ?_, ?_, ?_⟩
    · rw [hacc, ha, hs.accumulator]; simp
    · rw [hcount]
      have := abs_floor_div_le_one (frames.length * c.config_.target_sample_rate)
        input_rate hin
      simpa using this
    · intro h1 h2
      have e : c'.emitted_output_frames_ = frames.length / 3 := by
        rw [hcount, h1, h2]; omega
      refine ⟨e, ?_⟩
      rw [e]
      have := abs_floor_div_le_one frames.length 3 (by norm_num)
      simpa using this
  · intro input_format buffers hrate
    subst hrate
    obtain ⟨c', hrun, hp, -⟩ := processBuffers_spec env input_format hin buffers c h0
    obtain ⟨hl, -⟩ := heldFrames_length input_format.sample_rate
      c.config_.target_sample_rate hin hne (buffers.flatMap (decodedFrames input_format))
      c.resample_accumulator_ hacc0
    refine ⟨c', hrun, ?_⟩
    have hlen := decodedFrames_total input_format buffers
    rw [hp.emitted, hl, hp.captured, hs.emitted, hs.accumulator, hs.captured, hlen]
    simp

/-- Witness of C4: `Start` with a 16000 Hz target on a fresh engine, input at 48000 Hz,
four frames. -/
theorem C4_resampler_frame_count_witness :
    CaptureConfig.WellTyped { target_sample_rate := 16000 } ∧
    Start { target_sample_rate := 16000 } none {} =
      some ({ exampleStarted with config_ := { target_sample_rate := 16000 } }, true, none) ∧
    0 < 48000 ∧
    48000 ≠ ({ exampleStarted with
      config_ := { target_sample_rate := 16000 } } : Capture).config_.target_sample_rate ∧
    ∃ c', convertFrames exampleEnv 48000
        [(F32.zero, F32.zero), (F32.zero, F32.zero), (F32.zero, F32.zero),
          (F32.zero, F32.zero)]
        { exampleStarted with config_ := { target_sample_rate := 16000 } } = some c' ∧
      c'.emitted_output_frames_ = 1 ∧ c'.resample_accumulator_ = 16000 :=
  ⟨by simp [CaptureConfig.WellTyped], rfl, by norm_num, by simp,
    by
      obtain ⟨-, ⟨c', h1, h2, h3, -⟩, -⟩ := C4_resampler_frame_count exampleEnv
        { target_sample_rate := 16000 } {}
        { exampleStarted with config_ := { target_sample_rate := 16000 } } 48000
        [(F32.zero, F32.zero), (F32.zero, F32.zero), (F32.zero, F32.zero),
          (F32.zero, F32.zero)]
        (by simp [CaptureConfig.WellTyped]) rfl (by norm_num) (by simp)
      exact ⟨c', h1, by simpa using h2, by simpa using h3⟩⟩

/-- C5. Pass-through at equal rates.  In a session begun by `Start` whose negotiated
input rate equals the output rate, the rate converter step for a frame is one call of
`push_output_frame` with the decoded left and right values of that frame; the processing
of any sequence of buffers returns, and afterwards `emitted_output_frames` equals
`captured_input_frames` (the total of the frame counts of the buffers), and the samples
emitted in chunks followed by the pending ones are the int16 samples of the decoded
frames of all buffers, one frame after the other. -/
theorem C5_pass_through_at_equal_rates (env : Environment) (config : CaptureConfig)
    (c0 c : Capture) (input_format : InputFormatInfo) (buffers : List CaptureBuffer)
    (hconfig : config.WellTyped)
    (hstart : Start config none c0 = some (c, true, none))
    (hrate : input_format.sample_rate = c.config_.target_sample_rate) :
    (∀ (is_silent : Bool) (data : Option (ℕ → Byte)) (frame_index : ℕ) (d : Capture),
      d.config_ = c.config_ →
      processFrame env input_format is_silent data frame_index d =
        push_output_frame env (decodeFrame input_format is_silent data frame_index).1
          (decodeFrame input_format is_silent data frame_index).2 d) ∧
    ∃ c', processBuffers env input_format buffers c = some c' ∧
      c'.emitted_output_frames_ = c'.captured_input_frames_ ∧
      c'.captured_input_frames_ = (buffers.map (fun b => b.num_frames)).sum ∧
      c'.emit_log.flatten ++ c'.pending_samples =
        (buffers.flatMap (decodedFrames input_format)).flatMap
          (frameSamples env c.config_) := by
  have hs := Start_started hstart
  have h0 := hs.chunk_positive hconfig
  have hin : 0 < input_format.sample_rate := by
    rw [hrate]; exact Nat.pos_of_ne_zero hs.rate_ne_zero
  constructor
  · intro is_silent data frame_index d hd
    unfold processFrame convertFrame
    rw [if_pos (by rw [hd]; exact hrate)]
  · obtain ⟨c', hrun, hp, -⟩ := processBuffers_spec env input_format hin buffers c h0
    rw [hrate, heldFrames_equal_rates] at hp
    obtain ⟨chunks, hview, -, hstream⟩ := hp.chunks
    have hlog : c'.emit_log = chunks := by
      rw [sinkView_emit_log hview, emitRun_emit_log, hs.emit_log, List.nil_append]
    refine ⟨c', hrun, ?_, ?_, ?_⟩
    · rw [hp.emitted, hp.captured, hs.emitted, hs.captured, decodedFrames_total]
    · rw [hp.captured, hs.captured]; simp
    · rw [hlog, hstream, hs.pending, List.nil_append]

/-- Witness of C5: the default configuration (48000 Hz) on a fresh engine, 48000 Hz
input, one buffer of two frames. -/
theorem C5_pass_through_at_equal_rates_witness :
    CaptureConfig.WellTyped {} ∧
    Start {} none {} = some (exampleStarted, true, none) ∧
    exampleFormat.sample_rate = exampleStarted.config_.target_sample_rate ∧
    ∃ c', processBuffers exampleEnv exampleFormat [exampleBuffer] exampleStarted = some c' ∧
      c'.emitted_output_frames_ = c'.captured_input_frames_ ∧
      c'.captured_input_frames_ = 2 :=
  ⟨by simp [CaptureConfig.WellTyped], rfl, rfl,
    by
      obtain ⟨-, c', h1, h2, h3, -⟩ := C5_pass_through_at_equal_rates exampleEnv {} {}
        exampleStarted exampleFormat [exampleBuffer] (by simp [CaptureConfig.WellTyped])
        rfl rfl
      exact ⟨c', h1, h2, by simpa [exampleBuffer] using h3⟩⟩

/-- C6, the code at the failing input.  With `target_sample_rate = 48000` and
`frame_ms = 89479` (a configuration `Start` stores unchanged) the `uint32_t` product
wraps and `chunk_frames` is 24, while `max(1, 48000 × 89479 / 1000)` over the
mathematical product is 4294992.  For the example of the claim, `frame_ms = 20`,
`rate = 48000`, `channels = 2`, the code gives 960 frames and 1920 samples. -/
theorem C6_chunk_frames_wraps :
    CaptureConfig.WellTyped { target_sample_rate := 48000, frame_ms := 89479 } ∧
    (Start { target_sample_rate := 48000, frame_ms := 89479 } none {}).map
        (fun r => r.1.config_) =
      some { target_sample_rate := 48000, target_channels := 2, frame_ms := 89479 } ∧
    chunk_frames { target_sample_rate := 48000, frame_ms := 89479 } = 24 ∧
    max 1 (48000 * 89479 / 1000) = 4294992 ∧
    chunk_frames { target_sample_rate := 48000, target_channels := 2, frame_ms := 20 } = 960 ∧
    chunk_samples { target_sample_rate := 48000, target_channels := 2, frame_ms := 20 } =
      1920 := by
  refine ⟨by simp [CaptureConfig.WellTyped], rfl, by decide, by decide, by decide, by decide⟩

/-- C7 as stated fails: on a 32-bit float format a frame that starts with the bytes
`00 00 00 40` decodes to 2.0, outside `[-1.0, 1.0]`. -/
theorem C7_float32_out_of_range :
    formatAccepted exampleFloatFormat = true ∧
    DecodeSample (some exampleFrameTwo) 0 exampleFloatFormat = F32.finite 2 ∧
    ¬ (DecodeSample (some exampleFrameTwo) 0 exampleFloatFormat).InUnitRange := by
  have h : DecodeSample (some exampleFrameTwo) 0 exampleFloatFormat = F32.finite 2 := by
    rw [DecodeSample_float32 _ _ _ rfl (by decide)]
    have : readLE exampleFrameTwo (4 * clampedChannel 0 exampleFloatFormat) 4 = 0x40000000 := by
      decide
    rw [this, ofBits_two]
  refine ⟨by decide, h, ?_⟩
  rw [h]
  simp only [F32.InUnitRange]
  norm_num

/-- C7, amended.  For every format whose encoding is not 32-bit float (16-bit PCM,
32-bit-container PCM with any valid bit width, and the formats the decoder answers with
0), every raw input frame and every requested channel index, `DecodeSample` returns a
value in the closed interval `[-1.0, 1.0]`; on a 32-bit float format it returns the
`float` stored in the frame at the clamped channel, as it is. -/
theorem C7_decoder_output_range (frame_start : Option (ℕ → Byte)) (source_channel : ℕ)
    (format : InputFormatInfo) (h : format.sample_format ≠ SampleFormat.kFloat32) :
    (DecodeSample frame_start source_channel format).InUnitRange ∧
    ∀ (mem : ℕ → Byte) (float_format : InputFormatInfo),
      float_format.sample_format = SampleFormat.kFloat32 → float_format.channels ≠ 0 →
      DecodeSample (some mem) source_channel float_format =
        F32.ofBits (readLE mem (4 * clampedChannel source_channel float_format) 4) :=
  ⟨DecodeSample_inUnitRange frame_start source_channel format h,
    fun mem float_format h1 h2 => DecodeSample_float32 mem source_channel float_format h1 h2⟩

/-- Witness of C7: the 16-bit PCM example format on a frame of zero bytes. -/
theorem C7_decoder_output_range_witness :
    exampleFormat.sample_format ≠ SampleFormat.kFloat32 ∧
    (DecodeSample (some (fun _ => 0)) 1 exampleFormat).InUnitRange :=
  ⟨by decide,
    (C7_decoder_output_range (some (fun _ => 0)) 1 exampleFormat (by decide)).1⟩

/-- C8, the code at the failing input.  `ParseInputFormat` accepts packed 24-bit PCM
stereo (`WAVE_FORMAT_EXTENSIBLE`, PCM subtype, `wBitsPerSample = 24`) as `kInt32`.  The
channel `DecodeSample` reads for index 1 is `min(1, channels − 1) = 1`, but it reads it
as a 4-byte element: bytes 4 to 7 of a frame that the capture loop steps over in
`block_align = 6` bytes.  So the decode of channel 1 changes with byte 7, which is
outside the frame: two memories that agree on the six bytes of the frame decode
differently. -/
theorem C8_packed24_reads_past_frame :
    examplePacked24.WellTyped ∧
    ParseInputFormat (some examplePacked24) = examplePacked24Info ∧
    formatAccepted examplePacked24Info = true ∧
    clampedChannel 1 examplePacked24Info = 1 ∧
    DecodeSample.readRange 1 examplePacked24Info = some (4, 8) ∧
    block_align examplePacked24Info = 6 ∧
    (∀ i, i < 6 → exampleZeroMemory i = exampleByteSeven i) ∧
    DecodeSample (some exampleZeroMemory) 1 examplePacked24Info = F32.finite 0 ∧
    DecodeSample (some exampleByteSeven) 1 examplePacked24Info = F32.finite (1 / 2) := by
  refine ⟨by simp [WAVEFORMATEXTENSIBLE.WellTyped, examplePacked24, WAVE_FORMAT_EXTENSIBLE],
    by decide, by decide, by decide, by decide, by decide, ?_, ?_, ?_⟩
  · intro i hi
    have : i ≠ 7 := by omega
    simp [exampleZeroMemory, exampleByteSeven, this]
  · have hvalue : toSigned 32 (readLE exampleZeroMemory
        (4 * clampedChannel 1 examplePacked24Info) 4) >>> (8 : ℕ) = 0 := by decide
    rw [DecodeSample_int24 _ _ _ rfl (by decide) rfl (by decide), hvalue]
    simp only [F32.ofInt, Int.cast_zero, F32.round_zero, F32.divConst, zero_div]
  · have hvalue : toSigned 32 (readLE exampleByteSeven
        (4 * clampedChannel 1 examplePacked24Info) 4) >>> (8 : ℕ) = 4194304 := by decide
    have h1 : F32.ofInt 4194304 = F32.finite 4194304 := by
      have := F32.round_two_zpow 22 (by norm_num) (by norm_num)
      unfold F32.ofInt
      norm_num at this ⊢
      exact this
    have h2 : F32.round ((4194304 : ℚ) / 8388608) = F32.finite (1 / 2) := by
      have := F32.round_two_zpow (-1) (by norm_num) (by norm_num)
      norm_num at this
      norm_num
      exact this
    rw [DecodeSample_int24 _ _ _ rfl (by decide) rfl (by decide), hvalue, h1]
    exact h2

/-- C9. Channel mapping.  For every frame of a buffer that is decoded, the left value is
the decode of channel 0 and the right value is the decode of channel 1 when the
negotiated input has more than one channel, the left value otherwise.  A call of
`push_output_frame` returns, counts one output frame and appends to the output stream
exactly one sample, the int16 conversion of the left value, when the target has 1
channel (whatever the right value is), and exactly two samples, the conversion of the
left value then that of the right value, when the target has 2 channels.  The processing
of the frame returns and emits exactly `k` output frames, `k` being 1 at equal rates and
otherwise the number of times the input rate fits into the accumulator plus the output
rate; it appends to the output stream exactly `k` times the sample of the left value for
a 1-channel target, and exactly `k` times the pair of the samples of the left and the
right value for a 2-channel target. -/
theorem C9_channel_mapping (env : Environment) (input_format : InputFormatInfo)
    (is_silent : Bool) (data : Option (ℕ → Byte)) (frame_index : ℕ) (c : Capture)
    (hrate : 0 < input_format.sample_rate) :
    (∀ mem, is_silent = false → data = some mem →
      (decodeFrame input_format is_silent data frame_index).1 =
        DecodeSample (some (fun i => mem (frame_index * block_align input_format + i))) 0
          input_format ∧
      (1 < input_format.channels →
        (decodeFrame input_format is_silent data frame_index).2 =
          DecodeSample (some (fun i => mem (frame_index * block_align input_format + i))) 1
            input_format)) ∧
    (input_format.channels = 1 →
      (decodeFrame input_format is_silent data frame_index).2 =
        (decodeFrame input_format is_silent data frame_index).1) ∧
    (c.config_.target_channels = 1 → ∀ left right other : F32,
      push_output_frame env left right c = push_output_frame env left other c ∧
      ∃ c', push_output_frame env left right c = some c' ∧
        c'.emitted_output_frames_ = c.emitted_output_frames_ + 1 ∧
        c'.emit_log.flatten ++ c'.pending_samples =
          c.emit_log.flatten ++ c.pending_samples ++
            [FloatToInt16 env.lrintf_unspecified left]) ∧
    (c.config_.target_channels = 2 → ∀ left right : F32,
      ∃ c', push_output_frame env left right c = some c' ∧
        c'.emitted_output_frames_ = c.emitted_output_frames_ + 1 ∧
        c'.emit_log.flatten ++ c'.pending_samples =
          c.emit_log.flatten ++ c.pending_samples ++
            [FloatToInt16 env.lrintf_unspecified left,
             FloatToInt16 env.lrintf_unspecified right]) ∧
    (c.config_.target_channels = 1 →
      ∃ c', processFrame env input_format is_silent data frame_index c = some c' ∧
        c'.emitted_output_frames_ = c.emitted_output_frames_ +
          (if input_format.sample_rate = c.config_.target_sample_rate then 1
            else (c.resample_accumulator_ + c.config_.target_sample_rate) /
              input_format.sample_rate) ∧
        c'.emit_log.flatten ++ c'.pending_samples =
          c.emit_log.flatten ++ c.pending_samples ++
            List.replicate
              (if input_format.sample_rate = c.config_.target_sample_rate then 1
                else (c.resample_accumulator_ + c.config_.target_sample_rate) /
                  input_format.sample_rate)
              (FloatToInt16 env.lrintf_unspecified
                (decodeFrame input_format is_silent data frame_index).1)) ∧
    (c.config_.target_channels = 2 →
      ∃ c', processFrame env input_format is_silent data frame_index c = some c' ∧
        c'.emitted_output_frames_ = c.emitted_output_frames_ +
          (if input_format.sample_rate = c.config_.target_sample_rate then 1
            else (c.resample_accumulator_ + c.config_.target_sample_rate) /
              input_format.sample_rate) ∧
        c'.emit_log.flatten ++ c'.pending_samples =
          c.emit_log.flatten ++ c.pending_samples ++
            (List.replicate
              (if input_format.sample_rate = c.config_.target_sample_rate then 1
                else (c.resample_accumulator_ + c.config_.target_sample_rate) /
                  input_format.sample_rate)
              [FloatToInt16 env.lrintf_unspecified
                (decodeFrame input_format is_silent data frame_index).1,
               FloatToInt16 env.lrintf_unspecified
                (decodeFrame input_format is_silent data frame_index).2]).flatten) := by
  refine ⟨?_, ?_, ?_, ?_, ?_, ?_⟩
  · intro mem hs hd
    subst hs hd
    refine ⟨rfl, fun h1 => ?_⟩
    simp only [decodeFrame, h1, if_true]
  · intro h1
    unfold decodeFrame
    cases is_silent <;> cases data <;> simp [h1]
  · intro h1 left right other
    have h0 : 0 < chunk_samples c.config_ := chunk_samples_pos (by rw [h1]; norm_num)
      (by rw [h1]; norm_num)
    constructor
    · simp [push_output_frame, h1]
    · obtain ⟨c', hrun, hp, -⟩ := push_output_frame_spec env left right c h0
      refine ⟨c', hrun, hp.emitted, ?_⟩
      rw [hp.stream, frameSamples_mono env c.config_ h1]
      simp
  · intro h2 left right
    have h0 : 0 < chunk_samples c.config_ := chunk_samples_pos (by rw [h2]; norm_num)
      (by rw [h2]; norm_num)
    obtain ⟨c', hrun, hp, -⟩ := push_output_frame_spec env left right c h0
    refine ⟨c', hrun, hp.emitted, ?_⟩
    rw [hp.stream, frameSamples_stereo env c.config_ h2]
    simp
  · intro h1
    have h0 : 0 < chunk_samples c.config_ := chunk_samples_pos (by rw [h1]; norm_num)
      (by rw [h1]; norm_num)
    obtain ⟨c', hrun, hp, -⟩ := convertFrame_spec env input_format.sample_rate hrate
      (decodeFrame input_format is_silent data frame_index).1
      (decodeFrame input_format is_silent data frame_index).2 c h0
    refine ⟨c', hrun, ?_, ?_⟩
    · rw [hp.emitted, heldFrames_single_length]
    · rw [hp.stream, frameSamples_mono env c.config_ h1]
      congr 1
      rw [heldFrames_single, heldFrames_single_length]
      exact flatMap_replicate_single _ _ _
  · intro h2
    have h0 : 0 < chunk_samples c.config_ := chunk_samples_pos (by rw [h2]; norm_num)
      (by rw [h2]; norm_num)
    obtain ⟨c', hrun, hp, -⟩ := convertFrame_spec env input_format.sample_rate hrate
      (decodeFrame input_format is_silent data frame_index).1
      (decodeFrame input_format is_silent data frame_index).2 c h0
    refine ⟨c', hrun, ?_, ?_⟩
    · rw [hp.emitted, heldFrames_single_length]
    · rw [hp.stream, frameSamples_stereo env c.config_ h2]
      congr 1
      rw [heldFrames_single, heldFrames_single_length]
      exact flatMap_replicate_pair _ _ _ _

/-- Witness of C9: the first frame of the example buffer in the example session (equal
rates, 2-channel target): one output frame, two samples. -/
theorem C9_channel_mapping_witness :
    0 < exampleFormat.sample_rate ∧
    ∃ c', processFrame exampleEnv exampleFormat false exampleBuffer.data 0 exampleStarted
        = some c' ∧
      c'.emitted_output_frames_ = 1 ∧
      c'.emit_log.flatten ++ c'.pending_samples =
        [FloatToInt16 exampleEnv.lrintf_unspecified
            (decodeFrame exampleFormat false exampleBuffer.data 0).1,
         FloatToInt16 exampleEnv.lrintf_unspecified
            (decodeFrame exampleFormat false exampleBuffer.data 0).2] :=
  ⟨by decide,
    by
      obtain ⟨c', h1, h2, h3⟩ := (C9_channel_mapping exampleEnv exampleFormat false
        exampleBuffer.data 0 exampleStarted (by decide)).2.2.2.2.2 rfl
      refine ⟨c', h1, ?_, ?_⟩
      · rw [h2]; rfl
      · rw [h3]; rfl⟩

/-- C10. Silent buffers.  In a session with a nonzero channel count and input rate, the
processing of a buffer of `n` frames returns, adds exactly `n` to
`captured_input_frames` and emits exactly `k` output frames, where `k` is `n` at equal
rates and otherwise `⌊(accumulator + n × output_rate) / input_rate⌋` (0 for `n = 0`),
leaving the accumulator at the remainder; the chunks it hands to `emit_chunk` have
`chunk_samples` samples each and less than a chunk stays pending.  When the buffer is
flagged silent it also adds exactly `n` to `silent_input_frames`, every frame decodes to
left = right = 0 whatever the bytes of the buffer, the processing is the rate converter
and chunk assembler run on these `n` zero frames, as it is run on the decoded frames of a
buffer that is not silent, and it appends to the output stream exactly the samples of the
`k` output frames, one per target channel written, all of them 0.  When the buffer is
not flagged silent, `silent_input_frames` is unchanged. -/
theorem C10_silent_buffers (env : Environment) (input_format : InputFormatInfo)
    (buffer : CaptureBuffer) (c : Capture)
    (hrate : 0 < input_format.sample_rate)
    (hchannels : c.config_.target_channels ≠ 0)
    (hwidth : c.config_.target_channels < 2 ^ 32) :
    FloatToInt16 env.lrintf_unspecified F32.zero = 0 ∧
    ∃ c', processBuffer env input_format buffer c = some c' ∧
      c'.captured_input_frames_ = c.captured_input_frames_ + buffer.num_frames ∧
      c'.emitted_output_frames_ = c.emitted_output_frames_ +
        (if input_format.sample_rate = c.config_.target_sample_rate then buffer.num_frames
          else if buffer.num_frames = 0 then 0
          else (c.resample_accumulator_ + buffer.num_frames * c.config_.target_sample_rate) /
            input_format.sample_rate) ∧
      c'.resample_accumulator_ =
        (if input_format.sample_rate = c.config_.target_sample_rate
          then c.resample_accumulator_
          else if buffer.num_frames = 0 then c.resample_accumulator_
          else (c.resample_accumulator_ + buffer.num_frames * c.config_.target_sample_rate) %
            input_format.sample_rate) ∧
      (∃ chunks : List (List ℤ), c'.emit_log = c.emit_log ++ chunks ∧
        ∀ chunk ∈ chunks, chunk.length = chunk_samples c.config_) ∧
      (c.pending_samples.length < chunk_samples c.config_ →
        c'.pending_samples.length < chunk_samples c.config_) ∧
      ((buffer.flags &&& AUDCLNT_BUFFERFLAGS_SILENT) ≠ 0 →
        c'.silent_input_frames_ = c.silent_input_frames_ + buffer.num_frames ∧
        (∀ frame_index,
          decodeFrame input_format true buffer.data frame_index = (F32.zero, F32.zero)) ∧
        processBuffer env input_format buffer c =
          convertFrames env input_format.sample_rate
            (List.replicate buffer.num_frames (F32.zero, F32.zero))
            { c with
              captured_input_frames_ := c.captured_input_frames_ + buffer.num_frames
              silent_input_frames_ := c.silent_input_frames_ + buffer.num_frames } ∧
        c'.emit_log.flatten ++ c'.pending_samples =
          c.emit_log.flatten ++ c.pending_samples ++
            List.replicate
              ((if input_format.sample_rate = c.config_.target_sample_rate
                  then buffer.num_frames
                else if buffer.num_frames = 0 then 0
                else (c.resample_accumulator_ +
                    buffer.num_frames * c.config_.target_sample_rate) /
                  input_format.sample_rate) *
                (if 1 < c.config_.target_channels then 2 else 1)) 0) ∧
      ((buffer.flags &&& AUDCLNT_BUFFERFLAGS_SILENT) = 0 →
        c'.silent_input_frames_ = c.silent_input_frames_ ∧
        processBuffer env input_format buffer c =
          convertFrames env input_format.sample_rate
            ((List.range' 0 buffer.num_frames).map
              (decodeFrame input_format false buffer.data))
            { c with
              captured_input_frames_ := c.captured_input_frames_ + buffer.num_frames }) := by
  have h0 : 0 < chunk_samples c.config_ := chunk_samples_pos hwidth hchannels
  obtain ⟨c', hrun, hp, hacc⟩ := processBuffer_spec env input_format hrate buffer c h0
  obtain ⟨hcount, hrem⟩ := heldFrames_count input_format.sample_rate
    c.config_.target_sample_rate hrate c.resample_accumulator_
    (decodedFrames input_format buffer)
  rw [decodedFrames_length] at hcount hrem
  refine ⟨FloatToInt16_zero _, c', hrun, hp.captured, ?_, ?_, hp.log, hp.short, ?_, ?_⟩
  · rw [hp.emitted, hcount]
  · rw [hacc, hrem]
  · intro hsilent
    have hdec : decodedFrames input_format buffer =
        List.replicate buffer.num_frames (F32.zero, F32.zero) := by
      unfold decodedFrames
      simp only [hsilent, ne_eq, not_false_eq_true, decide_True]
      apply List.ext_getElem
      · simp
      · intro i h1 h2
        simp [decodeFrame_silent]
    refine ⟨?_, fun i => decodeFrame_silent _ _ i, ?_, ?_⟩
    · rw [hp.silent]; simp [silentFrames, hsilent]
    · rw [processBuffer_eq, hdec]
      simp [silentFrames, hsilent]
    · rw [hp.stream]
      congr 1
      rw [← hcount, hdec, heldFrames_replicate, flatMap_replicate, frameSamples_zero_eq,
        flatten_replicate_replicate, List.length_replicate]
  · intro hclear
    constructor
    · rw [hp.silent]; simp [silentFrames, hclear]
    · rw [processBuffer_eq]
      simp [decodedFrames, silentFrames, hclear]

/-- Witness of C10: a silent buffer of two frames in the example session: two output
frames, four samples 0. -/
theorem C10_silent_buffers_witness :
    0 < exampleFormat.sample_rate ∧
    exampleStarted.config_.target_channels ≠ 0 ∧
    exampleStarted.config_.target_channels < 2 ^ 32 ∧
    ∃ c', processBuffer exampleEnv exampleFormat ⟨none, 2, 2⟩ exampleStarted = some c' ∧
      c'.captured_input_frames_ = 2 ∧ c'.silent_input_frames_ = 2 ∧
      c'.emitted_output_frames_ = 2 ∧
      c'.emit_log.flatten ++ c'.pending_samples = [0, 0, 0, 0] :=
  ⟨by decide, by decide, by decide,
    by
      obtain ⟨-, c', h1, h2, h3, -, -, -, h4, -⟩ := C10_silent_buffers exampleEnv
        exampleFormat ⟨none, 2, 2⟩ exampleStarted (by decide) (by decide) (by decide)
      obtain ⟨h5, -, -, h6⟩ := h4 (by decide)
      refine ⟨c', h1, ?_, ?_, ?_, ?_⟩
      · rw [h2]; rfl
      · rw [h5]; rfl
      · rw [h3]; rfl
      · rw [h6]; rfl⟩

/-- C11. Config defaulting at `Start`.  Whenever `Start` is called with the running flag
false and returns, the stored configuration has `target_sample_rate` 48000 if the given
value is 0 and the given value otherwise, `target_channels` 2 if 0 and the given value
otherwise, `frame_ms` 20 if 0 and the given value otherwise, and the snapshot of
`GetStats` reports these values.  If `Start` reports an error, the thread could not be
created and the error is that of the thread creation; what `Start` returns is the same
for every other configuration, zero fields or not; and with all fields zero, no joinable
thread and no failure to create the thread, `Start` succeeds. -/
theorem C11_config_defaulting_at_start (config : CaptureConfig)
    (spawn_error : Option String) (c c' : Capture) (started : Bool) (error : Option String)
    (hrun : c.running_ = false)
    (hstart : Start config spawn_error c = some (c', started, error)) :
    c'.config_.target_sample_rate =
      (if config.target_sample_rate = 0 then 48000 else config.target_sample_rate) ∧
    c'.config_.target_channels =
      (if config.target_channels = 0 then 2 else config.target_channels) ∧
    c'.config_.frame_ms = (if config.frame_ms = 0 then 20 else config.frame_ms) ∧
    (GetStats c').output_sample_rate =
      (if config.target_sample_rate = 0 then 48000 else config.target_sample_rate) ∧
    (GetStats c').output_channels =
      (if config.target_channels = 0 then 2 else config.target_channels) ∧
    (GetStats c').chunk_frame_ms = (if config.frame_ms = 0 then 20 else config.frame_ms) ∧
    (started = false → spawn_error ≠ none ∧ error = spawn_error) ∧
    (∀ other : CaptureConfig,
      (Start other spawn_error c).map (fun r => (r.2.1, r.2.2)) = some (started, error)) ∧
    (c.thread_joinable = false →
      ∃ d, Start { target_sample_rate := 0, target_channels := 0, frame_ms := 0 } none c =
        some (d, true, none)) := by
  have hconfig : c'.config_ = effectiveConfig config ∧
      (started = false → spawn_error ≠ none ∧ error = spawn_error) ∧
      (∀ other : CaptureConfig,
        (Start other spawn_error c).map (fun r => (r.2.1, r.2.2)) = some (started, error)) := by
    rcases Start_cases config spawn_error c c' started error hstart with
      ⟨hr, -⟩ | ⟨-, rfl, ⟨what, rfl, rfl, -⟩, hc, -, -⟩ | ⟨-, rfl, rfl, rfl, hj, hc, -, -⟩
    · rw [hrun] at hr; simp at hr
    · refine ⟨hc, fun _ => ⟨by simp, rfl⟩, fun other => ?_⟩
      simp [Start, hrun]
    · refine ⟨hc, fun h => by simp at h, fun other => ?_⟩
      simp [Start, hrun, hj]
  obtain ⟨hc, herr, hother⟩ := hconfig
  refine ⟨by rw [hc]; rfl, by rw [hc]; rfl, by rw [hc]; rfl, ?_, ?_, ?_, herr, hother, ?_⟩
  · simp only [GetStats]; rw [hc]; rfl
  · simp only [GetStats]; rw [hc]; rfl
  · simp only [GetStats]; rw [hc]; rfl
  · intro hj
    simp [Start, hrun, hj]

/-- Witness of C11: `Start` with all fields zero on a fresh engine. -/
theorem C11_config_defaulting_at_start_witness :
    ({} : Capture).running_ = false ∧
    Start { target_sample_rate := 0, target_channels := 0, frame_ms := 0 } none {} =
      some (exampleStarted, true, none) ∧
    exampleStarted.config_.target_sample_rate = 48000 ∧
    exampleStarted.config_.target_channels = 2 ∧
    exampleStarted.config_.frame_ms = 20 ∧
    (GetStats exampleStarted).output_sample_rate = 48000 ∧
    (GetStats exampleStarted).output_channels = 2 ∧
    (GetStats exampleStarted).chunk_frame_ms = 20 :=
  ⟨rfl, rfl,
    by
      obtain ⟨h1, h2, h3, h4, h5, h6, -⟩ := C11_config_defaulting_at_start
        { target_sample_rate := 0, target_channels := 0, frame_ms := 0 } none {}
        exampleStarted true none rfl rfl
      exact ⟨h1, h2, h3, h4, h5, h6⟩⟩

/-- C12. `Start` while already running is a no-op.  When the running flag is true,
`Start` of the engine returns false with the state unchanged: no thread is spawned (the
thread handle and the phase of the thread are as before) and the stored configuration,
every counter, the resampler state and the last-error text are as before.  `Start` of the
add-on changes nothing either and, a sink being registered, returns the snapshot that
`GetStats` gives on the state before the call. -/
theorem C12_start_while_running_is_noop (config : CaptureConfig)
    (spawn_error : Option String) (a : Addon)
    (hrun : a.g_capture.capture.running_ = true) :
    Start config spawn_error a.g_capture.capture =
      some (a.g_capture.capture, false, some "System audio capture is already running.") ∧
    startEngine config spawn_error a.g_capture =
      some (a.g_capture, false, some "System audio capture is already running.") ∧
    (∃ outcome, Addon.Start config spawn_error a = some (a, outcome)) ∧
    (a.g_chunk_tsf = true →
      Addon.Start config spawn_error a = some (a, Except.ok (Addon.GetStats a))) := by
  have h1 : Start config spawn_error a.g_capture.capture =
      some (a.g_capture.capture, false, some "System audio capture is already running.") := by
    simp [Start, hrun]
  refine ⟨h1, ?_, ?_, ?_⟩
  · simp [startEngine, h1]
  · cases ht : a.g_chunk_tsf
    · exact ⟨Except.error "Chunk callback is not set. Call setChunkCallback first.",
        by simp [Addon.Start, ht]⟩
    · exact ⟨Except.ok (ToStatsObject (GetStats a.g_capture.capture)),
        by simp [Addon.Start, ht, IsRunning, hrun]⟩
  · intro ht
    simp [Addon.Start, ht, IsRunning, hrun, Addon.GetStats]

/-- Witness of C12: the add-on with a sink registered and the example session running. -/
theorem C12_start_while_running_is_noop_witness :
    ({ g_capture := exampleEngineStarted, g_chunk_tsf := true } : Addon).g_capture.capture.running_
      = true ∧
    Addon.Start { target_sample_rate := 16000 } none
        { g_capture := exampleEngineStarted, g_chunk_tsf := true } =
      some ({ g_capture := exampleEngineStarted, g_chunk_tsf := true },
        Except.ok (Addon.GetStats { g_capture := exampleEngineStarted, g_chunk_tsf := true })) :=
  ⟨rfl,
    (C12_start_while_running_is_noop { target_sample_rate := 16000 } none
      { g_capture := exampleEngineStarted, g_chunk_tsf := true } rfl).2.2.2 rfl⟩

/-- C13. `Stop` is idempotent and safe before `Start`.  On the freshly constructed
engine, and on every state with the running flag false and no joinable thread, `Stop`
returns at once and changes nothing.  From every state of the lifecycle `Stop` can
return, and whenever it returns the running flag is false and no thread is joinable, a
second `Stop` right after changes nothing, and `Stop` of the add-on returns the snapshot
of that state without an error.  `Stop` resets nothing: when the capture thread does
nothing more in the meantime the snapshot differs in the running flag only, and whatever
the thread still does before it returns, no counter is lower afterwards, the stored
configuration is the same, and a last-error text that was not empty is not empty. -/
theorem C13_stop_idempotent (env : Environment) (tail again : List ThreadEvent)
    (e e' : Engine) (hreach : Reachable env e) (hstop : Stop env tail e = some e') :
    (∀ t, Stop env t {} = some {}) ∧
    (e.capture.running_ = false → e.capture.thread_joinable = false → e' = e) ∧
    (∃ t e0, Stop env t e = some e0) ∧
    e'.capture.running_ = false ∧ e'.capture.thread_joinable = false ∧
    Stop env again e' = some e' ∧
    (∀ a : Addon, a.g_capture = e →
      Addon.Stop env tail a = some ({ a with g_capture := e' }, GetStats e'.capture)) ∧
    (tail = [] → GetStats e'.capture = { GetStats e.capture with running := false }) ∧
    e'.capture.config_ = e.capture.config_ ∧
    e.capture.captured_input_frames_ ≤ e'.capture.captured_input_frames_ ∧
    e.capture.emitted_output_frames_ ≤ e'.capture.emitted_output_frames_ ∧
    e.capture.emitted_chunks_ ≤ e'.capture.emitted_chunks_ ∧
    e.capture.dropped_chunks_ ≤ e'.capture.dropped_chunks_ ∧
    e.capture.silent_input_frames_ ≤ e'.capture.silent_input_frames_ ∧
    e.capture.chunk_sequence_ ≤ e'.capture.chunk_sequence_ ∧
    (e.capture.last_error_ ≠ "" → e'.capture.last_error_ ≠ "") := by
  obtain ⟨hr, hj⟩ := Stop_result env tail e e' hstop
  obtain ⟨-, hn⟩ := Stop_facts env tail e e' hreach.sound hstop
  refine ⟨fun t => Stop_idle env t {} rfl rfl, ?_, Stop_returns env e, hr, hj,
    Stop_idle env again e' hr hj, ?_, ?_, hn.config, hn.captured, hn.emitted, hn.chunks,
    hn.dropped, hn.silent, hn.sequence, ?_⟩
  · intro h1 h2
    have := Stop_idle env tail e h1 h2
    rw [this] at hstop
    simp only [Option.some.injEq] at hstop
    exact hstop.symm
  · intro a ha
    subst ha
    simp [Addon.Stop, hstop, ToStatsObject]
  · intro ht
    subst ht
    exact Stop_stats env e e' hstop
  · intro hne
    rcases hn.last_error with h | ⟨failure, h⟩
    · rw [h]; exact hne
    · rw [h]; exact failure.message_ne_empty

/-- Witness of C13: `Stop` in the example session while the thread is negotiating; the
thread fails to create its event and returns. -/
theorem C13_stop_idempotent_witness :
    Reachable exampleEnv exampleEngineStarted ∧
    Stop exampleEnv [ThreadEvent.failed Failure.createEvent] exampleEngineStarted =
      some { capture := { exampleStarted with
               running_ := false, thread_joinable := false
               last_error_ := "CreateEvent failed for loopback capture." }
             phase := ThreadPhase.absent } ∧
    Stop exampleEnv []
        { capture := { exampleStarted with
            running_ := false, thread_joinable := false
            last_error_ := "CreateEvent failed for loopback capture." }
          phase := ThreadPhase.absent } =
      some { capture := { exampleStarted with
               running_ := false, thread_joinable := false
               last_error_ := "CreateEvent failed for loopback capture." }
             phase := ThreadPhase.absent } :=
  ⟨exampleEngineStarted_reachable exampleEnv, rfl,
    (C13_stop_idempotent exampleEnv [ThreadEvent.failed Failure.createEvent] []
      exampleEngineStarted _ (exampleEngineStarted_reachable exampleEnv) rfl).2.2.2.2.2.1⟩

/-- C14, the code at the failing input.  `Start` on the fresh engine spawns the capture
thread; the thread fails to find a default render endpoint, records the error, clears the
running flag and returns.  In the state reached the running flag is false and the thread
handle is still joinable, so that the next `Start` passes its running check and assigns a
new thread to the joinable handle, which ends the process; so does `Start` of the add-on.
`Stop` in the same state joins the thread and returns. -/
theorem C14_restart_after_failure_terminates :
    startEngine {} none {} = some (exampleEngineStarted, true, none) ∧
    threadStep exampleEnv
        (ThreadEvent.failed (Failure.hresult "GetDefaultAudioEndpoint" 0x80070490))
        exampleEngineStarted = some exampleEngineFailed ∧
    Reachable exampleEnv exampleEngineFailed ∧
    exampleEngineFailed.capture.running_ = false ∧
    exampleEngineFailed.capture.thread_joinable = true ∧
    Start {} none exampleEngineFailed.capture = none ∧
    startEngine {} none exampleEngineFailed = none ∧
    Addon.Start {} none { g_capture := exampleEngineFailed, g_chunk_tsf := true } = none ∧
    (Stop exampleEnv [] exampleEngineFailed).map
        (fun e => (e.capture.running_, e.capture.thread_joinable)) = some (false, false) := by
  refine ⟨rfl, ?_, exampleEngineFailed_reachable exampleEnv, rfl, rfl, rfl, rfl, rfl, rfl⟩
  simp only [threadStep, exampleEngineStarted, exampleEngineFailed, SetError,
    Option.some.injEq, Engine.mk.injEq, and_true]
  have : (Failure.hresult "GetDefaultAudioEndpoint" 0x80070490).message =
      "GetDefaultAudioEndpoint failed (HRESULT=0x80070490)" := by decide
  rw [this]

end SystemAudio
